import Mathlib

/-!
# Recipe Finder: the dashboard view, the response cache and the recipe listing

A shallow embedding of

* `filteredAndSortedRecipes` of `client/src/pages/Dashboard.jsx` (filter, then sort),
* `cacheMiddleware` of `server/index.js` together with the three routes it wraps,
* the `GET /api/recipes` handler of `server/index.js` (sort, skip, limit, page count),
* `authenticateJWT`, the signup and login routes and the recipe routes of `server/index.js`,
* `debouncedSearch` of `client/src/pages/Dashboard.jsx` with the timers it starts,

followed by the properties proved about them.

Conventions. A JavaScript number is a rational (`ℚ`), and `none` stands for `NaN`; only the
sign of a difference is ever used, and the rounding of a double subtraction keeps that sign.
Clock readings (`Date.now()`) are milliseconds in `ℕ`.
-/

namespace RecipeFinder

/-! ## Strings -/

/-- The two locale-dependent string primitives the dashboard calls, `String.prototype.toLowerCase`
and `String.prototype.localeCompare`. They belong to the host, so every definition below takes
them as given and every theorem holds whatever they are. -/
structure Host where
  toLowerCase : String → String
  localeCompare : String → String → ℚ

/-- Comparison of two strings by the code points of their characters, first difference first:
negative, zero or positive. -/
def compareCodePoints : List Char → List Char → ℚ
  | [], [] => 0
  | [], _ :: _ => -1
  | _ :: _, [] => 1
  | c :: s, d :: t =>
    if c.toNat < d.toNat then -1 else if d.toNat < c.toNat then 1 else compareCodePoints s t

/-- A host that lower-cases ASCII letters and compares strings by code point. -/
def asciiHost : Host where
  toLowerCase := fun s => ⟨s.data.map Char.toLower⟩
  localeCompare := fun s t => compareCodePoints s.data t.data

/-- Whether `t` occurs in `s` starting at its first position. -/
def startsWith : List Char → List Char → Bool
  | _, [] => true
  | [], _ :: _ => false
  | c :: s, d :: t => c == d && startsWith s t

/-- Search for `t` at every position of `s`, from left to right. -/
def includesAt : List Char → List Char → Bool
  | [], t => startsWith [] t
  | c :: s, t => startsWith (c :: s) t || includesAt s t

/-- `s.includes(t)` of `String.prototype.includes`. -/
def includes (s t : String) : Bool :=
  includesAt s.data t.data

/-! ## Recipes as the dashboard reads them -/

/-- The fields of a recipe object that `filteredAndSortedRecipes` reads.
`category` is `none` when the property is `undefined`; `popularity` and `prepTime` hold the
value the property has as a number (`none` when that is `NaN`, as for a missing property);
`createdAt` holds the time value of `new Date(recipe.createdAt)` in milliseconds (`none` for an
invalid date). -/
structure Recipe where
  title : String
  category : Option String
  popularity : Option ℚ
  createdAt : Option ℤ
  prepTime : Option ℚ
  deriving DecidableEq

/-- The `value` fields of `SORT_OPTIONS`, in the order of the menu. -/
def SORT_OPTIONS : List (String × String) :=
  [("popular", "Most Popular"), ("recent", "Recently Added"),
   ("prepTime", "Quickest to Make"), ("title", "Alphabetical")]

/-- The initial state of `sortBy` (`useState('recent')`). -/
def initialSortBy : String := "recent"

/-- The `-` operator on two numbers: `NaN` as soon as one operand is `NaN`. -/
def jsSub : Option ℚ → Option ℚ → Option ℚ
  | some x, some y => some (x - y)
  | _, _ => none

/-- The time value of a date as a number. -/
def timeValue (d : Option ℤ) : Option ℚ := d.map fun t => (t : ℚ)

/-- The comparator handed to `.sort`: the `switch (sortBy)` of `filteredAndSortedRecipes`. -/
def compareRecipes (host : Host) (sortBy : String) (a b : Recipe) : Option ℚ :=
  match sortBy with
  | "popular" => jsSub b.popularity a.popularity
  | "recent" => jsSub (timeValue b.createdAt) (timeValue a.createdAt)
  | "quick" => jsSub a.prepTime b.prepTime
  | "alpha" => some (host.localeCompare a.title b.title)
  | _ => some 0

/-! ## `Array.prototype.sort`

The sort is stable, and a comparator result of `NaN` counts as `+0`. For a comparator that is a
consistent ordering of the elements the result of a stable sort is unique, so it is computed here
by a stable insertion sort; for other comparators the language leaves the order open. -/

/-- Whether `x` stays in front of `y` when `x` precedes `y`: the comparator does not return a
positive number. -/
def keepsBefore {α : Type} (cmp : α → α → Option ℚ) (x y : α) : Bool :=
  match cmp x y with
  | none => true
  | some v => decide (v ≤ 0)

/-- Insert `x`, which preceded every element of the list, into an already sorted list. -/
def sortInsert {α : Type} (cmp : α → α → Option ℚ) (x : α) : List α → List α
  | [] => [x]
  | y :: ys => if keepsBefore cmp x y then x :: y :: ys else y :: sortInsert cmp x ys

/-- `xs.sort(cmp)`. -/
def sort {α : Type} (cmp : α → α → Option ℚ) : List α → List α
  | [] => []
  | x :: xs => sortInsert cmp x (sort cmp xs)

/-- The predicate of the `.filter` call of `filteredAndSortedRecipes`. -/
def matchesFilter (host : Host) (searchQuery selectedCategory : String) (recipe : Recipe) : Bool :=
  let matchesSearch := includes (host.toLowerCase recipe.title) (host.toLowerCase searchQuery)
  let matchesCategory := selectedCategory == "all" || recipe.category == some selectedCategory
  matchesSearch && matchesCategory

/-- The memoised view of the dashboard: `recipes.filter(...).sort(...)`. -/
def filteredAndSortedRecipes (host : Host) (recipes : List Recipe)
    (searchQuery selectedCategory sortBy : String) : List Recipe :=
  sort (compareRecipes host sortBy) (recipes.filter (matchesFilter host searchQuery selectedCategory))

/-- A recipe that takes 90 minutes. -/
def stew : Recipe := ⟨"Stew", some "dinner", some 4, some 1000, some 90⟩

/-- A recipe that takes 10 minutes. -/
def salad : Recipe := ⟨"Salad", some "lunch", some 5, some 2000, some 10⟩

/-! ## Response bodies -/

/-- A value handed to `res.json`. -/
inductive Json where
  | null
  | bool (b : Bool)
  | num (n : ℚ)
  | str (s : String)
  | arr (items : List Json)
  | obj (fields : List (String × Json))

/-- The outcome of `if (value)`: `null`, `false`, `0` and `''` are falsy, every array and every
object is truthy. -/
def Json.truthy : Json → Bool
  | .null => false
  | .bool b => b
  | .num n => decide (n ≠ 0)
  | .str s => decide (s ≠ "")
  | .arr _ => true
  | .obj _ => true

/-- The expression `value || fallback`, where `none` is `undefined`. -/
def jsOr (value : Option Json) (fallback : Json) : Json :=
  match value with
  | some v => if v.truthy then v else fallback
  | none => fallback

/-! ## The `node-cache` store behind `apiCache` -/

/-- A wrapped value of `node-cache`: the value `v` and the instant `t` (in milliseconds) after
which it is expired, `0` for a value that never expires. -/
structure Entry where
  v : Json
  t : ℕ

/-- The store: the option `stdTTL` (in seconds) and the table `data`. -/
structure NodeCache where
  stdTTL : ℕ
  data : String → Option Entry

/-- The cache of `server/index.js`: `new NodeCache({ stdTTL: 600 })`, empty. -/
def apiCache : NodeCache where
  stdTTL := 600
  data := fun _ => none

/-- An entry is expired when `data.t !== 0 && data.t < Date.now()`. -/
def Entry.expired (e : Entry) (now : ℕ) : Bool :=
  e.t != 0 && decide (e.t < now)

/-- Remove a key (`del`). -/
def NodeCache.del (c : NodeCache) (key : String) : NodeCache :=
  { c with data := fun k => if k = key then none else c.data k }

/-- Lookup (`get`): the value of a present, unexpired entry; an expired entry is deleted and the
result is `undefined` (`none`), as for an absent key. -/
def NodeCache.get (c : NodeCache) (now : ℕ) (key : String) : Option Json × NodeCache :=
  match c.data key with
  | some e => if e.expired now then (none, c.del key) else (some e.v, c)
  | none => (none, c)

/-- The expiry instant computed by `_wrap`: a `ttl` of `0` never expires, another `ttl` lasts
`ttl` seconds, and without a `ttl` the `stdTTL` of the store is taken. -/
def NodeCache.livetime (c : NodeCache) (now : ℕ) (ttl : Option ℕ) : ℕ :=
  match ttl with
  | some 0 => 0
  | some d => now + d * 1000
  | none => if c.stdTTL = 0 then 0 else now + c.stdTTL * 1000

/-- Store a value (`set(key, value, ttl)`). -/
def NodeCache.set (c : NodeCache) (now : ℕ) (key : String) (value : Json) (ttl : Option ℕ) :
    NodeCache :=
  { c with data := fun k => if k = key then some ⟨value, c.livetime now ttl⟩ else c.data k }

/-! ## `cacheMiddleware` and the routes it wraps -/

/-- What the middleware does with a request: it answers itself with `res.json(cachedResponse)`,
or it replaces `res.json` and calls `next()`. -/
inductive Outcome where
  | replied (body : Json)
  | passedOn

/-- The middleware `cacheMiddleware(duration)` run on a request at time `now`. -/
def cacheMiddleware (_duration : ℕ) (cache : NodeCache) (now : ℕ) (originalUrl : String) :
    Outcome × NodeCache :=
  let key := originalUrl
  match cache.get now key with
  | (some cachedResponse, cache) =>
    if cachedResponse.truthy then (.replied cachedResponse, cache) else (.passedOn, cache)
  | (none, cache) => (.passedOn, cache)

/-- The replacement of `res.json` installed on a miss, called with `body` at time `now`:
`apiCache.set(key, body, duration)` and then `res.originalJson(body)`. The first component is
the body sent to the client. -/
def wrappedJson (duration : ℕ) (key : String) (cache : NodeCache) (now : ℕ) (body : Json) :
    Json × NodeCache :=
  (body, cache.set now key body (some duration))

/-- The routes registered with `cacheMiddleware`. -/
inductive Route where
  | search
  | categories
  | category
  deriving DecidableEq

/-- The argument of `cacheMiddleware` on each route. -/
def Route.duration : Route → ℕ
  | .search => 300
  | .categories => 3600
  | .category => 600

/-- The `error` text of the `catch` branch of each route. -/
def Route.errorText : Route → String
  | .search => "Failed to fetch recipes"
  | .categories => "Failed to fetch categories"
  | .category => "Failed to fetch recipes by category"

/-- What the outbound `axios.get` gives the handler: the field of `response.data` the handler
reads (`meals` or `categories`; `none` when it is `undefined`), or an error with its message. -/
inductive Upstream where
  | data (field : Option Json)
  | failed (message : String)

/-- An HTTP answer: status and JSON body. -/
structure Response where
  status : ℕ
  body : Json

/-- The handler of a cached route: `res.json(field || [])`, and in the `catch` branch
`res.status(500).json({ error, details: err.message })`. -/
def Route.handler (route : Route) : Upstream → Response
  | .data field => ⟨200, jsOr field (.arr [])⟩
  | .failed message => ⟨500, .obj [("error", .str route.errorText), ("details", .str message)]⟩

/-- One request handled to its end. -/
structure Served where
  response : Response
  handlerInvoked : Bool
  cache : NodeCache

/-- A request for `originalUrl` on `route`, arriving at `arrival`, with no other request handled
before it is answered. On a hit the middleware answers (status 200). On a miss the handler runs,
its outbound call results in `upstream`, and it answers at `answered` through the replaced
`res.json`. -/
def serve (route : Route) (cache : NodeCache) (arrival answered : ℕ) (originalUrl : String)
    (upstream : Upstream) : Served :=
  match cacheMiddleware route.duration cache arrival originalUrl with
  | (.replied body, cache) => ⟨⟨200, body⟩, false, cache⟩
  | (.passedOn, cache) =>
    let answer := route.handler upstream
    let (sent, cache) := wrappedJson route.duration originalUrl cache answered answer.body
    ⟨⟨answer.status, sent⟩, true, cache⟩

/-! ## The cached routes as the server runs them

The server handles one event at a time, but a request is not handled in one piece: the
middleware runs when the request arrives, and the replaced `res.json` runs later, when the
outbound call of the handler has come back. Other requests may arrive in between. -/

/-- An event on the cached routes: a request arrives, or the handler of a request that was
passed on gets the result of its outbound call and answers. -/
inductive Event where
  | arrives (request : ℕ) (route : Route) (time : ℕ) (originalUrl : String)
  | answers (request : ℕ) (time : ℕ) (upstream : Upstream)

/-- A request whose handler is awaiting its outbound call: the route, and the `key` the
replaced `res.json` holds. -/
structure Waiting where
  request : ℕ
  route : Route
  key : String

/-- The server as far as the cached routes go: the cache, the requests awaiting their outbound
call, the answers sent so far (request and response, oldest first) and the requests whose
handler was invoked (oldest first). -/
structure Server where
  cache : NodeCache
  waiting : List Waiting
  sent : List (ℕ × Response)
  invoked : List ℕ

/-- The server at start: the empty `apiCache`, nothing in flight. -/
def Server.start : Server := ⟨apiCache, [], [], []⟩

/-- One event. An arriving request runs `cacheMiddleware`: on a hit it is answered with status
200, on a miss its handler is invoked and awaits the outbound call. An answer runs the replaced
`res.json` of the request with the body the handler sends. -/
def Server.step (s : Server) : Event → Server
  | .arrives request route time originalUrl =>
    match cacheMiddleware route.duration s.cache time originalUrl with
    | (.replied body, cache) =>
      { s with cache := cache, sent := s.sent ++ [(request, ⟨200, body⟩)] }
    | (.passedOn, cache) =>
      { s with cache := cache
               waiting := s.waiting ++ [⟨request, route, originalUrl⟩]
               invoked := s.invoked ++ [request] }
  | .answers request time upstream =>
    match s.waiting.find? (fun w => w.request = request) with
    | none => s
    | some w =>
      let answer := w.route.handler upstream
      let (sent, cache) := wrappedJson w.route.duration w.key s.cache time answer.body
      { cache := cache
        waiting := s.waiting.filter (fun v => v.request ≠ request)
        sent := s.sent ++ [(request, ⟨answer.status, sent⟩)]
        invoked := s.invoked }

/-- The events of a list, handled in order. -/
def Server.run (s : Server) (events : List Event) : Server :=
  events.foldl Server.step s

/-- The URL of the examples. -/
def pieUrl : String := "/api/external-recipes/search?query=pie"

/-- Two requests for one URL, the second arriving 1000 ms after the first, while the handler of
the first is still awaiting its outbound call, which comes back at 5000 ms. -/
def overlapping : List Event :=
  [.arrives 1 .search 0 pieUrl, .arrives 2 .search 1000 pieUrl,
   .answers 1 5000 (.data (some (.arr [.str "Apple Pie"]))),
   .answers 2 6000 (.data (some (.arr [.str "Apple Pie"])))]

/-! ## `GET /api/recipes` -/

/-- Modelled from the spec: the `Recipe` schema (`models/Recipe.js`) is not among the sources.
A stored recipe carries the fields the handlers of `server/index.js` write, its `_id`, the
`createdAt` instant the listing is ordered by, and the `popularity` the dashboard shows and
rates. A field that a document does not have (`undefined`) is `none`. -/
structure StoredRecipe where
  id : String
  title : Option String
  ingredients : Option String
  instructions : Option String
  image : String
  userId : String
  createdAt : ℤ
  popularity : Option ℚ
  deriving DecidableEq

/-- A Mongoose query under construction: the options set by `.skip`, `.limit` and `.sort`.
`sortCreatedAt` is the direction given for `createdAt` (`-1` descending, `1` ascending). -/
structure Query where
  skipOpt : Option ℤ
  limitOpt : Option ℤ
  sortCreatedAt : Option ℤ

/-- The query `Recipe.find()`. -/
def Query.find : Query := ⟨none, none, none⟩

/-- The builder call `.skip(n)`. -/
def Query.skip (q : Query) (n : ℤ) : Query := { q with skipOpt := some n }

/-- The builder call `.limit(n)`. -/
def Query.limit (q : Query) (n : ℤ) : Query := { q with limitOpt := some n }

/-- The builder call `.sort({ createdAt: direction })`. -/
def Query.sort (q : Query) (direction : ℤ) : Query := { q with sortCreatedAt := some direction }

/-- The comparator of a sort on `createdAt` in the given direction. -/
def compareCreatedAt (direction : ℤ) (a b : StoredRecipe) : Option ℚ :=
  if direction < 0 then some ((b.createdAt : ℚ) - a.createdAt)
  else some ((a.createdAt : ℚ) - b.createdAt)

/-- Running a query on the collection: the database sorts, then skips, then limits, in this
order however the builder calls were chained. A negative skip is rejected with an error; a limit
of `0` is no limit and a negative limit counts as its absolute value. -/
def Query.exec (q : Query) (store : List StoredRecipe) : Except String (List StoredRecipe) :=
  let sorted := match q.sortCreatedAt with
    | some direction => RecipeFinder.sort (compareCreatedAt direction) store
    | none => store
  let skip := q.skipOpt.getD 0
  if skip < 0 then .error "Skip value must be non-negative"
  else
    let skipped := sorted.drop skip.toNat
    match q.limitOpt with
    | none => .ok skipped
    | some n => if n = 0 then .ok skipped else .ok (skipped.take n.natAbs)

/-- The number `Recipe.countDocuments()` resolves to. -/
def countDocuments (store : List StoredRecipe) : ℕ := store.length

/-- The expression `Math.ceil(total / limit)`: `none` when `limit` is `0`, where the quotient is
not a finite number. For operands below `2^53` the rounded quotient of two integers is an integer
only when the exact one is, so the ceiling of the exact quotient is the value computed. -/
def ceilDiv (total : ℕ) (limit : ℤ) : Option ℤ :=
  if limit = 0 then none else some ⌈(total : ℚ) / (limit : ℚ)⌉

/-- The body of a successful listing. -/
structure Listing where
  recipes : List StoredRecipe
  currentPage : ℤ
  totalPages : Option ℤ
  totalRecipes : ℕ

/-- The handler of `GET /api/recipes` from `const skip` on, for the values `page` and `limit`
computed from the query string; an error thrown by the database leads to the `catch` branch,
which answers 500 with the error's message as `details`. -/
def listRecipes (store : List StoredRecipe) (page limit : ℤ) : Except (ℕ × String) Listing :=
  let skip := (page - 1) * limit
  match (((Query.find.skip skip).limit limit).sort (-1)).exec store with
  | .error message => .error (500, message)
  | .ok recipes =>
    let total := countDocuments store
    .ok { recipes := recipes, currentPage := page, totalPages := ceilDiv total limit,
          totalRecipes := total }

/-- A stored recipe created at the given instant, the other fields left empty. -/
def recipeAt (id : String) (createdAt : ℤ) : StoredRecipe :=
  ⟨id, none, none, none, "", "", createdAt, none⟩

/-! ## Answers of the account and recipe routes -/

/-- The JSON bodies the account and recipe routes send: `{ error }` or `{ error, details }`,
`{ message }` or `{ message, recipe }`, a recipe, the listing, and `{ token, userId }`. -/
inductive Body where
  | error (error : String) (details : Option String)
  | message (message : String) (recipe : Option StoredRecipe)
  | recipe (recipe : StoredRecipe)
  | listing (listing : Listing)
  | token (token : String) (userId : String)

/-- An answer `res.status(status).json(body)`; `res.json(body)` is the status 200. -/
structure Reply where
  status : ℕ
  body : Body

/-- The answer of a `catch` branch: `res.status(500).json({ error, details: error.message })`. -/
def caught (error message : String) : Reply :=
  ⟨500, .error error (some message)⟩

/-! ## `authenticateJWT` -/

/-- The payload `jwt.verify` decodes from a token this server signed: `{ id }`. -/
structure TokenPayload where
  id : String
  deriving DecidableEq

/-- The call `s.replace(pattern, '')` with a string pattern: the first occurrence of `pattern` in
`s`, searched from the left, is removed. -/
def removeFirst (pattern : List Char) : List Char → List Char
  | [] => []
  | c :: s =>
    if startsWith (c :: s) pattern then (c :: s).drop pattern.length
    else c :: removeFirst pattern s

/-- What the middleware does: it sets `req.user` and calls `next()`, or it answers. -/
inductive Auth where
  | next (user : TokenPayload)
  | replied (reply : Reply)

/-- The middleware `authenticateJWT` for a request whose `Authorization` header is
`authorization` (`none` when there is none). `verify token` is `jwt.verify(token, JWT_SECRET)`:
the decoded payload, or `none` when the call throws. -/
def authenticateJWT (verify : String → Option TokenPayload) (authorization : Option String) :
    Auth :=
  match authorization with
  | none => .replied ⟨403, .error "Access denied" none⟩
  | some token =>
    if token = "" then .replied ⟨403, .error "Access denied" none⟩
    else
      match verify ⟨removeFirst "Bearer ".data token.data⟩ with
      | some decoded => .next decoded
      | none => .replied ⟨403, .error "Invalid token" none⟩

/-! ## The recipe routes

A database call either completes or throws; a handler takes, for each call it awaits, the message
of the error thrown (`some message`) or `none` when the call completes. -/

/-- The fields of `req.body` a client may send with a recipe; an absent field is `none`. -/
structure RecipeBody where
  title : Option String
  ingredients : Option String
  instructions : Option String
  userId : Option String
  popularity : Option ℚ

/-- The expression `value || fallback` on strings that may be `undefined`. -/
def strOr (value fallback : Option String) : Option String :=
  match value with
  | some s => if s = "" then fallback else some s
  | none => fallback

/-- The handler of `POST /api/recipes` behind `authenticateJWT` and `upload.single('image')`:
`user` is `req.user`, `file` the path of the uploaded file if there is one. The new document
gets the fresh `_id` `newId` and the creation instant `now`; it is appended to the collection. -/
def postRecipe (saveFault : Option String) (newId : String) (now : ℤ) (store : List StoredRecipe)
    (user : TokenPayload) (body : RecipeBody) (file : Option String) :
    Reply × List StoredRecipe :=
  let recipe : StoredRecipe :=
    { id := newId
      title := body.title
      ingredients := body.ingredients
      instructions := body.instructions
      image := match file with
        | some path => path
        | none => ""
      userId := user.id
      createdAt := now
      popularity := none }
  match saveFault with
  | some message => (caught "Failed to create recipe" message, store)
  | none => (⟨201, .message "Recipe created successfully" (some recipe)⟩, store ++ [recipe])

/-- White space that `parseInt` skips in front of the number. -/
def isWhiteSpace (c : Char) : Bool :=
  c.toNat ∈ [9, 10, 11, 12, 13, 32, 160, 5760, 8232, 8233, 8239, 8287, 12288, 65279] ||
    (8192 ≤ c.toNat && c.toNat ≤ 8202)

/-- The value of a character as a digit: `0`–`9`, then the letters from `10` on. -/
def digitValue (c : Char) : Option ℕ :=
  if 48 ≤ c.toNat ∧ c.toNat ≤ 57 then some (c.toNat - 48)
  else if 97 ≤ c.toNat ∧ c.toNat ≤ 122 then some (c.toNat - 87)
  else if 65 ≤ c.toNat ∧ c.toNat ≤ 90 then some (c.toNat - 55)
  else none

/-- The longest prefix of digits of the radix, as digit values. -/
def takeDigits (radix : ℕ) : List Char → List ℕ
  | [] => []
  | c :: s =>
    match digitValue c with
    | some d => if d < radix then d :: takeDigits radix s else []
    | none => []

/-- The number written by a list of digits. -/
def digitsValue (radix : ℕ) (digits : List ℕ) : ℕ :=
  digits.foldl (fun acc d => acc * radix + d) 0

/-- The function `parseInt(string)` without a radix; `none` is `NaN`. White space is skipped,
then a sign is read, then `0x` or `0X` selects radix 16, then the longest run of digits is read.
An integer is kept exactly, where the language rounds it to a double. -/
def parseIntString (input : String) : Option ℤ :=
  let trimmed := input.data.dropWhile isWhiteSpace
  let (sign, unsigned) : ℤ × List Char :=
    match trimmed with
    | '-' :: rest => (-1, rest)
    | '+' :: rest => (1, rest)
    | rest => (1, rest)
  let (radix, body) : ℕ × List Char :=
    match unsigned with
    | '0' :: 'x' :: rest => (16, rest)
    | '0' :: 'X' :: rest => (16, rest)
    | rest => (10, rest)
  let digits := takeDigits radix body
  if digits = [] then none else some (sign * (digitsValue radix digits : ℤ))

/-- The call `parseInt(req.query.name)`: an absent parameter is `undefined`, which is read as
the string `'undefined'`. -/
def parseInt (param : Option String) : Option ℤ :=
  parseIntString (param.getD "undefined")

/-- The expression `number || fallback`: `NaN` and `0` are falsy. -/
def numOr (number : Option ℤ) (fallback : ℤ) : ℤ :=
  match number with
  | some n => if n = 0 then fallback else n
  | none => fallback

/-- The `page` of `GET /api/recipes`: `parseInt(req.query.page) || 1`. -/
def pageOf (pageParam : Option String) : ℤ := numOr (parseInt pageParam) 1

/-- The `limit` of `GET /api/recipes`: `parseInt(req.query.limit) || 10`. -/
def limitOf (limitParam : Option String) : ℤ := numOr (parseInt limitParam) 10

/-- The handler of `GET /api/recipes`; `fault` is the error `Promise.all` rejects with. -/
def getRecipes (fault : Option String) (store : List StoredRecipe)
    (pageParam limitParam : Option String) : Reply :=
  let page := pageOf pageParam
  let limit := limitOf limitParam
  match fault with
  | some message => caught "Failed to retrieve recipes" message
  | none =>
    match listRecipes store page limit with
    | .error (_, message) => caught "Failed to retrieve recipes" message
    | .ok listing => ⟨200, .listing listing⟩

/-- The handler of `GET /api/recipes/:id`. -/
def getRecipeById (fault : Option String) (store : List StoredRecipe) (id : String) : Reply :=
  match fault with
  | some message => caught "Failed to retrieve recipe" message
  | none =>
    match store.find? (fun r => r.id = id) with
    | none => ⟨404, .error "Recipe not found" none⟩
    | some recipe => ⟨200, .recipe recipe⟩

/-- The filter `{ _id: id, userId: userId }`. -/
def ownedBy (id userId : String) (r : StoredRecipe) : Bool :=
  r.id = id && r.userId = userId

/-- The call `recipe.save()` on a document read from the collection: the stored document with
the same `_id` is replaced. -/
def saveRecipe (store : List StoredRecipe) (recipe : StoredRecipe) : List StoredRecipe :=
  store.map fun r => if r.id = recipe.id then recipe else r

/-- The handler of `PUT /api/recipes/:id` behind `authenticateJWT` and `upload.single('image')`.
`findFault` belongs to `Recipe.findOne`, `saveFault` to `recipe.save()`. -/
def putRecipe (findFault saveFault : Option String) (store : List StoredRecipe)
    (user : TokenPayload) (id : String) (body : RecipeBody) (file : Option String) :
    Reply × List StoredRecipe :=
  match findFault with
  | some message => (caught "Failed to update recipe" message, store)
  | none =>
    match store.find? (ownedBy id user.id) with
    | none => (⟨404, .error "Recipe not found or not authorized" none⟩, store)
    | some found =>
      let recipe : StoredRecipe :=
        { found with
          title := strOr body.title found.title
          ingredients := strOr body.ingredients found.ingredients
          instructions := strOr body.instructions found.instructions
          image := match file with
            | some path => path
            | none => found.image }
      match saveFault with
      | some message => (caught "Failed to update recipe" message, store)
      | none => (⟨200, .message "Recipe updated successfully" (some recipe)⟩,
          saveRecipe store recipe)

/-- The handler of `DELETE /api/recipes/:id` behind `authenticateJWT`: `findOneAndDelete` removes
the first document that passes the filter. -/
def deleteRecipe (fault : Option String) (store : List StoredRecipe) (user : TokenPayload)
    (id : String) : Reply × List StoredRecipe :=
  match fault with
  | some message => (caught "Failed to delete recipe" message, store)
  | none =>
    match store.find? (ownedBy id user.id) with
    | none => (⟨404, .error "Recipe not found or not authorized" none⟩, store)
    | some _ => (⟨200, .message "Recipe deleted successfully" none⟩,
        store.eraseP (ownedBy id user.id))

/-- A route behind `authenticateJWT`: the handler runs with `req.user` when the middleware calls
`next()`; otherwise the middleware's answer is the answer and the collection is not touched. -/
def behindAuth (verify : String → Option TokenPayload) (authorization : Option String)
    (store : List StoredRecipe) (handler : TokenPayload → Reply × List StoredRecipe) :
    Reply × List StoredRecipe :=
  match authenticateJWT verify authorization with
  | .next user => handler user
  | .replied reply => (reply, store)

/-- The rating request of the dashboard: `handleRateRecipe(recipeId, rating)` calls
`updateRecipe(recipeId, { popularity: rating })`, a `PUT /api/recipes/:id` with this body. -/
def ratingBody (rating : ℚ) : RecipeBody :=
  ⟨none, none, none, none, some rating⟩

/-! ## Signup and login -/

/-- Modelled from the spec: the `User` schema (`models/User.js`) is not among the sources. A
stored user has its `_id`, the `username` and the `password` field the signup route writes. -/
structure User where
  id : String
  username : String
  password : String
  deriving DecidableEq

/-- The two functions of `bcryptjs` the server calls. `hash salt password` is what
`bcrypt.hash(password, 10)` resolves to when the library draws the salt `salt`;
`compare password stored` is what `bcrypt.compare(password, stored)` resolves to. -/
structure Bcrypt where
  hash : String → String → String
  compare : String → String → Bool

/-- A signup request: the two fields of `req.body` (`none` when absent), the salt drawn for the
hash, the `_id` of the new document, and the errors thrown by `User.findOne` and `user.save()`. -/
structure SignupRequest where
  username : Option String
  password : Option String
  salt : String
  newId : String
  findFault : Option String
  saveFault : Option String

/-- The handler of `POST /api/signup`. -/
def signup (bcrypt : Bcrypt) (users : List User) (request : SignupRequest) :
    Reply × List User :=
  match request.username, request.password with
  | some username, some password =>
    if username = "" ∨ password = "" then
      (⟨400, .error "Username and password are required" none⟩, users)
    else
      match request.findFault with
      | some message => (caught "Failed to create user" message, users)
      | none =>
        match users.find? (fun u => u.username = username) with
        | some _ => (⟨400, .error "Username already exists" none⟩, users)
        | none =>
          let hashed := bcrypt.hash request.salt password
          match request.saveFault with
          | some message => (caught "Failed to create user" message, users)
          | none => (⟨201, .message "User created successfully" none⟩,
              users ++ [⟨request.newId, username, hashed⟩])
  | _, _ => (⟨400, .error "Username and password are required" none⟩, users)

/-- Signup requests handled one after another: the answers, and the users at the end. -/
def signupAll (bcrypt : Bcrypt) (users : List User) : List SignupRequest → List Reply × List User
  | [] => ([], users)
  | request :: rest =>
    let (reply, users) := signup bcrypt users request
    let (replies, users) := signupAll bcrypt users rest
    (reply :: replies, users)

/-- The handler of `POST /api/login`. `sign payload` is the token `jwt.sign` makes for the
payload; `fault` is the error thrown by `User.findOne`. -/
def login (bcrypt : Bcrypt) (sign : TokenPayload → String) (fault : Option String)
    (users : List User) (username password : Option String) : Reply :=
  match username, password with
  | some username, some password =>
    if username = "" ∨ password = "" then ⟨400, .error "Username and password are required" none⟩
    else
      match fault with
      | some message => caught "Login failed" message
      | none =>
        match users.find? (fun u => u.username = username) with
        | none => ⟨401, .error "Invalid credentials" none⟩
        | some user =>
          if bcrypt.compare password user.password then ⟨200, .token (sign ⟨user.id⟩) user.id⟩
          else ⟨401, .error "Invalid credentials" none⟩
  | _, _ => ⟨400, .error "Username and password are required" none⟩

/-! ## The search box of the dashboard -/

/-- A pending timeout: its id, the instant (in milliseconds) it is due, and the value its
callback passes to `setSearchQuery`. -/
structure Timer where
  id : ℕ
  due : ℕ
  value : String
  deriving DecidableEq

/-- The part of the page the search box acts on: the state `searchQuery`, the pending timeouts
in the order they fire, the id of the next timeout, and the record of the calls of
`setSearchQuery` made so far (instant and value, oldest first). -/
structure SearchBox where
  searchQuery : String
  timers : List Timer
  nextId : ℕ
  assigned : List (ℕ × String)

/-- The search box of a freshly mounted dashboard: `useState('')`, no timeout. -/
def SearchBox.initial : SearchBox := ⟨"", [], 0, []⟩

/-- Put a timeout behind the pending ones that are due no later than it. -/
def schedule (t : Timer) : List Timer → List Timer
  | [] => [t]
  | u :: us => if t.due < u.due then t :: u :: us else u :: schedule t us

/-- The call `debouncedSearch(value)` at the instant `now`: a timeout of 300 ms is started; the
result is the page and the id that the returned function `() => clearTimeout(timeoutId)`
would clear. -/
def debouncedSearch (box : SearchBox) (now : ℕ) (value : String) : SearchBox × ℕ :=
  let timeoutId := box.nextId
  ({ box with timers := schedule ⟨timeoutId, now + 300, value⟩ box.timers
              nextId := box.nextId + 1 }, timeoutId)

/-- The call `clearTimeout(id)`. -/
def clearTimeout (box : SearchBox) (id : ℕ) : SearchBox :=
  { box with timers := box.timers.filter fun t => t.id != id }

/-- The `onChange` handler of the search input, `(e) => debouncedSearch(e.target.value)`: the
function `debouncedSearch` returns is dropped, nothing calls it. -/
def onChange (box : SearchBox) (now : ℕ) (value : String) : SearchBox :=
  (debouncedSearch box now value).1

/-- The callbacks of the timeouts in the list run in order: each calls `setSearchQuery(value)`
at its due instant. -/
def fire (box : SearchBox) : List Timer → SearchBox
  | [] => box
  | t :: ts => fire { box with searchQuery := t.value, assigned := box.assigned ++ [(t.due, t.value)] } ts

/-- Time passes until `now`: the timeouts due by then fire, the others stay pending. -/
def advance (box : SearchBox) (now : ℕ) : SearchBox :=
  fire { box with timers := box.timers.filter fun t => decide (now < t.due) }
    (box.timers.filter fun t => decide (t.due ≤ now))

/-- The user types: at each instant of the list (in increasing order) the input changes to the
value given; in the end time passes until `finish`. -/
def typing (box : SearchBox) (finish : ℕ) : List (ℕ × String) → SearchBox
  | [] => advance box finish
  | (now, value) :: rest => typing (onChange (advance box now) now value) finish rest

/-- The user of the examples. -/
def alice : TokenPayload := ⟨"u1"⟩

/-- Another user. -/
def bob : TokenPayload := ⟨"u2"⟩

/-- The body of the request by which `alice` creates her recipe. -/
def tartBody : RecipeBody := ⟨some "Tart", some "apples", some "bake", none, none⟩

/-- A recipe of `alice`, as `POST /api/recipes` stores it: without a popularity. -/
def tart : StoredRecipe :=
  ⟨"r1", some "Tart", some "apples", some "bake", "", "u1", 1000, none⟩

/-- A recipe of `bob`. -/
def broth : StoredRecipe :=
  ⟨"r2", some "Broth", some "bones", some "simmer", "", "u2", 2000, none⟩

/-- A stand-in for `bcryptjs`: the hash is the salt in front of the password. -/
def toyBcrypt : Bcrypt where
  hash := fun salt password => salt ++ password
  compare := fun password stored => stored.data.drop 2 == password.data

/-- A stored user `ann` whose password hash is that of `secret` with the salt `$$`. -/
def ann : User := ⟨"u1", "ann", "$$secret"⟩

/-- A signup for the user name `ann`. -/
def signupAnn : SignupRequest := ⟨some "ann", some "other", "$$", "u9", none, none⟩

/-- A signup for the user name `ben`. -/
def signupBen : SignupRequest := ⟨some "ben", some "pass", "$$", "u2", none, none⟩

/-! ## Properties of the view -/

theorem startsWith_iff_prefix (s t : List Char) : startsWith s t = true ↔ t <+: s := by
  induction s generalizing t with
  | nil => cases t <;> simp [startsWith]
  | cons c s ih =>
    cases t with
    | nil => simp [startsWith]
    | cons d t =>
      simp only [startsWith, Bool.and_eq_true, beq_iff_eq, ih, List.cons_prefix_cons]
      exact ⟨fun h => ⟨h.1.symm, h.2⟩, fun h => ⟨h.1.symm, h.2⟩⟩

theorem includesAt_iff_infix (s t : List Char) : includesAt s t = true ↔ t <:+: s := by
  induction s with
  | nil => cases t <;> simp [includesAt, startsWith]
  | cons c s ih =>
    simp only [includesAt, Bool.or_eq_true, startsWith_iff_prefix, ih, List.infix_cons_iff]

theorem sort_eq_insertionSort {α : Type} (cmp : α → α → Option ℚ) (l : List α) :
    sort cmp l = List.insertionSort (fun x y => keepsBefore cmp x y = true) l := by
  induction l with
  | nil => rfl
  | cons x xs ih =>
    simp only [sort, List.insertionSort, ih]
    induction List.insertionSort (fun x y => keepsBefore cmp x y = true) xs with
    | nil => rfl
    | cons y ys ihm => simp only [sortInsert, List.orderedInsert, ihm]

theorem sort_perm {α : Type} (cmp : α → α → Option ℚ) (l : List α) : (sort cmp l).Perm l := by
  rw [sort_eq_insertionSort]
  exact List.perm_insertionSort _ l


theorem includes_iff_infix (s t : String) : includes s t = true ↔ t.data <:+: s.data :=
  includesAt_iff_infix s.data t.data

theorem matchesFilter_iff (host : Host) (searchQuery selectedCategory : String) (r : Recipe) :
    matchesFilter host searchQuery selectedCategory r = true ↔
      (host.toLowerCase searchQuery).data <:+: (host.toLowerCase r.title).data ∧
        (r.category = some selectedCategory ∨ selectedCategory = "all") := by
  simp only [matchesFilter, Bool.and_eq_true, Bool.or_eq_true, beq_iff_eq, includes_iff_infix]
  exact ⟨fun h => ⟨h.1, h.2.symm⟩, fun h => ⟨h.1, h.2.symm⟩⟩

theorem mem_sort {α : Type} (cmp : α → α → Option ℚ) (l : List α) (a : α) :
    a ∈ sort cmp l ↔ a ∈ l :=
  (sort_perm cmp l).mem_iff

/-- A comparator that always answers `0` leaves the order as it is. -/
theorem sort_eq_self_of_zero {α : Type} (cmp : α → α → Option ℚ) (h : ∀ a b, cmp a b = some 0)
    (l : List α) : sort cmp l = l := by
  induction l with
  | nil => rfl
  | cons x xs ih =>
    rw [sort, ih]
    cases xs with
    | nil => rfl
    | cons y ys => simp [sortInsert, keepsBefore, h]

theorem sortInsert_eq_orderedInsert {α : Type} (cmp : α → α → Option ℚ) (le : α → α → Prop)
    [DecidableRel le] (x : α) (m : List α)
    (h : ∀ b ∈ m, (keepsBefore cmp x b = true ↔ le x b)) :
    sortInsert cmp x m = List.orderedInsert le x m := by
  induction m with
  | nil => rfl
  | cons y ys ih =>
    have hy := h y (List.mem_cons_self y ys)
    have ih1 := ih (fun b hb => h b (List.mem_cons_of_mem y hb))
    by_cases hle : le x y
    · simp [sortInsert, List.orderedInsert, hle, hy.mpr hle]
    · have hk : keepsBefore cmp x y = false := by
        cases hkb : keepsBefore cmp x y with
        | false => rfl
        | true => exact absurd (hy.mp hkb) hle
      simp [sortInsert, List.orderedInsert, hle, hk, ih1]

/-- When the comparator agrees with a decidable relation on the elements of the list, the sort
is the insertion sort for that relation. -/
theorem sort_eq_insertionSort_of_agree {α : Type} (cmp : α → α → Option ℚ) (le : α → α → Prop)
    [DecidableRel le] (l : List α)
    (h : ∀ a ∈ l, ∀ b ∈ l, (keepsBefore cmp a b = true ↔ le a b)) :
    sort cmp l = List.insertionSort le l := by
  induction l with
  | nil => rfl
  | cons x xs ih =>
    have ih1 := ih (fun a ha b hb => h a (List.mem_cons_of_mem x ha) b (List.mem_cons_of_mem x hb))
    rw [sort, ih1, List.insertionSort]
    apply sortInsert_eq_orderedInsert
    intro b hb
    exact h x (List.mem_cons_self x xs) b (List.mem_cons_of_mem x ((List.mem_insertionSort le).mp hb))

/-- A comparator that is the difference `key b - key a` on the elements of the list sorts them
by non-increasing key. -/
theorem sort_pairwise_of_key {α : Type} (cmp : α → α → Option ℚ) (key : α → ℚ) (l : List α)
    (h : ∀ a ∈ l, ∀ b ∈ l, cmp a b = some (key b - key a)) :
    (sort cmp l).Pairwise (fun a b => key b ≤ key a) := by
  haveI : IsTotal α (fun a b => key b ≤ key a) := ⟨fun a b => le_total (key b) (key a)⟩
  haveI : IsTrans α (fun a b => key b ≤ key a) := ⟨fun _ _ _ hab hbc => le_trans hbc hab⟩
  rw [sort_eq_insertionSort_of_agree cmp (fun a b => key b ≤ key a) l]
  · exact List.sorted_insertionSort (fun a b => key b ≤ key a) l
  · intro a ha b hb
    simp [keepsBefore, h a ha b hb]

/-- C1: the view holds exactly the recipes of the list that pass the search and the category
test, each as often as the list holds it: a recipe whose lower-cased title contains the
lower-cased query and whose category is the selected one (or the selection is 'all') occurs in
the view as often as in the list, any other recipe does not occur in it, and the view is a
rearrangement of the filtered list, so the sort adds and drops nothing. -/
theorem filteredAndSortedRecipes_exact (host : Host) (recipes : List Recipe)
    (searchQuery selectedCategory sortBy : String) :
    (∀ r : Recipe,
      ((host.toLowerCase searchQuery).data <:+: (host.toLowerCase r.title).data ∧
          (r.category = some selectedCategory ∨ selectedCategory = "all") →
        (filteredAndSortedRecipes host recipes searchQuery selectedCategory sortBy).count r =
          recipes.count r) ∧
      (¬ ((host.toLowerCase searchQuery).data <:+: (host.toLowerCase r.title).data ∧
          (r.category = some selectedCategory ∨ selectedCategory = "all")) →
        (filteredAndSortedRecipes host recipes searchQuery selectedCategory sortBy).count r = 0 ∧
          r ∉ filteredAndSortedRecipes host recipes searchQuery selectedCategory sortBy)) ∧
    (filteredAndSortedRecipes host recipes searchQuery selectedCategory sortBy).Perm
      (recipes.filter (matchesFilter host searchQuery selectedCategory)) ∧
    (filteredAndSortedRecipes host recipes searchQuery selectedCategory sortBy).length =
      (recipes.filter (matchesFilter host searchQuery selectedCategory)).length := by
  have hperm := sort_perm (compareRecipes host sortBy)
    (recipes.filter (matchesFilter host searchQuery selectedCategory))
  refine ⟨fun r => ⟨fun hr => ?_, fun hr => ?_⟩, hperm, hperm.length_eq⟩
  · unfold filteredAndSortedRecipes
    rw [hperm.count_eq, List.count_filter ((matchesFilter_iff host _ _ r).mpr hr)]
  · have hnot : r ∉ recipes.filter (matchesFilter host searchQuery selectedCategory) := by
      intro hmem
      exact hr ((matchesFilter_iff host _ _ r).mp (List.mem_filter.mp hmem).2)
    have hnot2 : r ∉ filteredAndSortedRecipes host recipes searchQuery selectedCategory sortBy :=
      fun hmem => hnot (hperm.mem_iff.mp hmem)
    exact ⟨List.count_eq_zero_of_not_mem hnot2, hnot2⟩

/-- C2: with `sortBy = 'prepTime'`, the value the menu sets for 'Quickest to Make', the view of
the list `[stew, salad]` is `[stew, salad]`: the 90-minute recipe stays in front of the
10-minute one, because the comparator has no case for 'prepTime' and answers `0`. -/
theorem filteredAndSortedRecipes_prepTime_not_sorted :
    ("prepTime", "Quickest to Make") ∈ SORT_OPTIONS ∧
    filteredAndSortedRecipes asciiHost [stew, salad] "" "all" "prepTime" = [stew, salad] ∧
    stew.prepTime = some 90 ∧ salad.prepTime = some 10 := by
  refine ⟨by decide, by decide, rfl, rfl⟩

/-- C3: with `sortBy = 'title'`, the value the menu sets for 'Alphabetical', the view of the list
`[stew, salad]` is `[stew, salad]`: 'Stew' stays in front of 'Salad' although it compares
greater, because the comparator has no case for 'title' and answers `0`. -/
theorem filteredAndSortedRecipes_title_not_sorted :
    ("title", "Alphabetical") ∈ SORT_OPTIONS ∧
    filteredAndSortedRecipes asciiHost [stew, salad] "" "all" "title" = [stew, salad] ∧
    0 < asciiHost.localeCompare stew.title salad.title := by
  refine ⟨by decide, by decide, ?_⟩
  simp [asciiHost, stew, salad, compareCodePoints]


/-- C4: with `sortBy = 'popular'` and a list in which every recipe has a numeric popularity, the
view is ordered by non-increasing popularity: every recipe of the view has a popularity greater
than or equal to that of every recipe behind it, in particular of the one right after it. -/
theorem filteredAndSortedRecipes_popular_sorted (host : Host) (recipes : List Recipe)
    (searchQuery selectedCategory : String) (h : ∀ r ∈ recipes, r.popularity ≠ none) :
    ("popular", "Most Popular") ∈ SORT_OPTIONS ∧
    (filteredAndSortedRecipes host recipes searchQuery selectedCategory "popular").Pairwise
        (fun a b => ∃ p q, a.popularity = some p ∧ b.popularity = some q ∧ q ≤ p) ∧
      (filteredAndSortedRecipes host recipes searchQuery selectedCategory "popular").Chain'
        (fun a b => ∃ p q, a.popularity = some p ∧ b.popularity = some q ∧ q ≤ p) := by
  have hnum : ∀ r ∈ recipes.filter (matchesFilter host searchQuery selectedCategory),
      r.popularity = some (r.popularity.getD 0) := by
    intro r hr
    have := h r (List.mem_filter.mp hr).1
    cases hp : r.popularity with
    | none => exact absurd hp this
    | some p => rfl
  have hsorted := sort_pairwise_of_key (compareRecipes host "popular")
    (fun r => r.popularity.getD 0) (recipes.filter (matchesFilter host searchQuery selectedCategory))
    (by
      intro a ha b hb
      simp only [compareRecipes]
      rw [hnum a ha, hnum b hb]
      rfl)
  have hpair : (filteredAndSortedRecipes host recipes searchQuery selectedCategory "popular").Pairwise
      (fun a b => ∃ p q, a.popularity = some p ∧ b.popularity = some q ∧ q ≤ p) := by
    refine List.Pairwise.imp_of_mem ?_ hsorted
    intro a b ha hb hab
    exact ⟨_, _, hnum a ((mem_sort _ _ a).mp ha), hnum b ((mem_sort _ _ b).mp hb), hab⟩
  exact ⟨by decide, hpair, hpair.chain'⟩

/-- The list `[stew, salad]` under 'Most Popular'. -/
theorem filteredAndSortedRecipes_popular_sorted_witness :
    (∀ r ∈ [stew, salad], r.popularity ≠ none) ∧
      (filteredAndSortedRecipes asciiHost [stew, salad] "" "all" "popular").Chain'
        (fun a b => ∃ p q, a.popularity = some p ∧ b.popularity = some q ∧ q ≤ p) :=
  ⟨by simp [stew, salad],
    (filteredAndSortedRecipes_popular_sorted asciiHost [stew, salad] "" "all"
      (by simp [stew, salad])).2.2⟩

/-- C5: with `sortBy = 'recent'`, the initial value, and a list in which every recipe has a
valid creation date, the view is ordered newest first: every recipe of the view was created at
the same time as or later than every recipe behind it, in particular the one right after it. -/
theorem filteredAndSortedRecipes_recent_sorted (host : Host) (recipes : List Recipe)
    (searchQuery selectedCategory : String) (h : ∀ r ∈ recipes, r.createdAt ≠ none) :
    initialSortBy = "recent" ∧ ("recent", "Recently Added") ∈ SORT_OPTIONS ∧
    (filteredAndSortedRecipes host recipes searchQuery selectedCategory "recent").Pairwise
        (fun a b => ∃ s t : ℤ, a.createdAt = some s ∧ b.createdAt = some t ∧ t ≤ s) ∧
      (filteredAndSortedRecipes host recipes searchQuery selectedCategory "recent").Chain'
        (fun a b => ∃ s t : ℤ, a.createdAt = some s ∧ b.createdAt = some t ∧ t ≤ s) := by
  have hnum : ∀ r ∈ recipes.filter (matchesFilter host searchQuery selectedCategory),
      r.createdAt = some (r.createdAt.getD 0) := by
    intro r hr
    have := h r (List.mem_filter.mp hr).1
    cases hp : r.createdAt with
    | none => exact absurd hp this
    | some p => rfl
  have hsorted := sort_pairwise_of_key (compareRecipes host "recent")
    (fun r => ((r.createdAt.getD 0 : ℤ) : ℚ))
    (recipes.filter (matchesFilter host searchQuery selectedCategory))
    (by
      intro a ha b hb
      simp only [compareRecipes]
      rw [hnum a ha, hnum b hb]
      rfl)
  have hpair : (filteredAndSortedRecipes host recipes searchQuery selectedCategory "recent").Pairwise
      (fun a b => ∃ s t : ℤ, a.createdAt = some s ∧ b.createdAt = some t ∧ t ≤ s) := by
    refine List.Pairwise.imp_of_mem ?_ hsorted
    intro a b ha hb hab
    exact ⟨_, _, hnum a ((mem_sort _ _ a).mp ha), hnum b ((mem_sort _ _ b).mp hb),
      Int.cast_le.mp hab⟩
  exact ⟨rfl, by decide, hpair, hpair.chain'⟩

/-- The list `[stew, salad]` under 'Recently Added'. -/
theorem filteredAndSortedRecipes_recent_sorted_witness :
    (∀ r ∈ [stew, salad], r.createdAt ≠ none) ∧
      (filteredAndSortedRecipes asciiHost [stew, salad] "" "all" "recent").Chain'
        (fun a b => ∃ s t : ℤ, a.createdAt = some s ∧ b.createdAt = some t ∧ t ≤ s) :=
  ⟨by simp [stew, salad],
    (filteredAndSortedRecipes_recent_sorted asciiHost [stew, salad] "" "all"
      (by simp [stew, salad])).2.2.2⟩


/-! ## Properties of the response cache -/

theorem jsOr_truthy (value : Option Json) : (jsOr value (.arr [])).truthy = true := by
  cases value with
  | none => rfl
  | some v =>
    cases hv : v.truthy with
    | true => simp [jsOr, hv]
    | false =>
      show (if v.truthy = true then v else Json.arr []).truthy = true
      rw [hv]
      rfl

/-- Every body a cached route sends is truthy: it is an array, an object, or a truthy field. -/
theorem handler_body_truthy (route : Route) (upstream : Upstream) :
    (route.handler upstream).body.truthy = true := by
  cases upstream with
  | data field => exact jsOr_truthy field
  | failed message => rfl

theorem duration_pos (route : Route) : 0 < route.duration := by
  cases route <;> decide

/-- A present, unexpired entry with a truthy value is answered from the cache. -/
theorem cacheMiddleware_hit (duration : ℕ) (cache : NodeCache) (now : ℕ) (key : String)
    (e : Entry) (hentry : cache.data key = some e) (hlive : e.expired now = false)
    (htruthy : e.v.truthy = true) :
    cacheMiddleware duration cache now key = (.replied e.v, cache) := by
  simp [cacheMiddleware, NodeCache.get, hentry, hlive, htruthy]

/-- After a miss, the first component of `NodeCache.get` being `none`, the middleware passes on. -/
theorem cacheMiddleware_miss (duration : ℕ) (cache : NodeCache) (now : ℕ) (key : String)
    (hmiss : (cache.get now key).1 = none) :
    (cacheMiddleware duration cache now key).1 = .passedOn := by
  have hget : cache.get now key = (none, (cache.get now key).2) := Prod.ext hmiss rfl
  simp only [cacheMiddleware]
  rw [hget]

/-- What `serve` does on a miss. -/
theorem serve_of_passedOn (route : Route) (cache : NodeCache) (arrival answered : ℕ)
    (originalUrl : String) (upstream : Upstream)
    (h : (cacheMiddleware route.duration cache arrival originalUrl).1 = .passedOn) :
    (serve route cache arrival answered originalUrl upstream).handlerInvoked = true ∧
      (serve route cache arrival answered originalUrl upstream).response = route.handler upstream ∧
      (serve route cache arrival answered originalUrl upstream).cache.data originalUrl =
        some ⟨(route.handler upstream).body, answered + route.duration * 1000⟩ := by
  unfold serve
  rcases hmw : cacheMiddleware route.duration cache arrival originalUrl with ⟨outcome, cache1⟩
  rw [hmw] at h
  simp only at h
  subst h
  have hd := duration_pos route
  refine ⟨rfl, rfl, ?_⟩
  simp only [wrappedJson, NodeCache.set, if_true]
  cases hdur : route.duration with
  | zero => omega
  | succ n => rfl

/-- What `serve` does on a hit. -/
theorem serve_of_replied (route : Route) (cache cache1 : NodeCache) (arrival answered : ℕ)
    (originalUrl : String) (upstream : Upstream) (body : Json)
    (h : cacheMiddleware route.duration cache arrival originalUrl = (.replied body, cache1)) :
    serve route cache arrival answered originalUrl upstream = ⟨⟨200, body⟩, false, cache1⟩ := by
  unfold serve
  rw [h]

/-- What an arriving request that misses the cache does to the server. -/
theorem step_arrives_passedOn (s : Server) (request : ℕ) (route : Route) (time : ℕ)
    (u : String) (h : (cacheMiddleware route.duration s.cache time u).1 = .passedOn) :
    s.step (.arrives request route time u) =
      { s with cache := (cacheMiddleware route.duration s.cache time u).2
               waiting := s.waiting ++ [⟨request, route, u⟩]
               invoked := s.invoked ++ [request] } := by
  simp only [Server.step]
  rcases hmw : cacheMiddleware route.duration s.cache time u with ⟨outcome, cache⟩
  rw [hmw] at h
  simp only at h
  subst h
  rfl

/-- What an arriving request that hits the cache does to the server. -/
theorem step_arrives_replied (s : Server) (request : ℕ) (route : Route) (time : ℕ)
    (u : String) (body : Json) (cache : NodeCache)
    (h : cacheMiddleware route.duration s.cache time u = (.replied body, cache)) :
    s.step (.arrives request route time u) =
      { s with cache := cache, sent := s.sent ++ [(request, ⟨200, body⟩)] } := by
  simp only [Server.step]
  rw [h]

/-- What the answer of a waiting request does to the server. -/
theorem step_answers (s : Server) (request time : ℕ) (upstream : Upstream) (w : Waiting)
    (h : s.waiting.find? (fun w => w.request = request) = some w) :
    s.step (.answers request time upstream) =
      { cache := s.cache.set time w.key (w.route.handler upstream).body (some w.route.duration)
        waiting := s.waiting.filter (fun v => v.request ≠ request)
        sent := s.sent ++ [(request, w.route.handler upstream)]
        invoked := s.invoked } := by
  simp only [Server.step]
  rw [h]
  rfl

/-- The middleware adds no entry: what the cache holds after it, it held before. -/
theorem cacheMiddleware_data_sub (duration : ℕ) (cache : NodeCache) (now : ℕ) (key k : String)
    (e : Entry) (h : (cacheMiddleware duration cache now key).2.data k = some e) :
    cache.data k = some e := by
  cases hentry : cache.data key with
  | none =>
    simpa [cacheMiddleware, NodeCache.get, hentry] using h
  | some found =>
    cases hexp : found.expired now with
    | true =>
      by_cases hk : k = key
      · simp [cacheMiddleware, NodeCache.get, hentry, hexp, NodeCache.del, hk] at h
      · simpa [cacheMiddleware, NodeCache.get, hentry, hexp, NodeCache.del, hk] using h
    | false =>
      cases htruthy : found.v.truthy with
      | true => simpa [cacheMiddleware, NodeCache.get, hentry, hexp, htruthy] using h
      | false => simpa [cacheMiddleware, NodeCache.get, hentry, hexp, htruthy] using h

/-- One event keeps every stored body truthy. -/
theorem step_entries_truthy (s : Server) (event : Event)
    (h : ∀ k e, s.cache.data k = some e → e.v.truthy = true) :
    ∀ k e, (s.step event).cache.data k = some e → e.v.truthy = true := by
  intro k e hk
  cases event with
  | arrives request route time u =>
    apply h k e
    apply cacheMiddleware_data_sub route.duration s.cache time u k e
    simp only [Server.step] at hk
    rcases hmw : cacheMiddleware route.duration s.cache time u with ⟨outcome, cache⟩
    rw [hmw] at hk
    cases outcome with
    | replied body => exact hk
    | passedOn => exact hk
  | answers request time upstream =>
    cases hfind : s.waiting.find? (fun w => w.request = request) with
    | none =>
      apply h k e
      simp only [Server.step] at hk
      rw [hfind] at hk
      exact hk
    | some w =>
      rw [step_answers s request time upstream w hfind] at hk
      simp only [NodeCache.set] at hk
      by_cases hkey : k = w.key
      · simp only [hkey, if_true, Option.some.injEq] at hk
        rw [← hk]
        exact handler_body_truthy w.route upstream
      · simp only [hkey, if_false] at hk
        exact h k e hk

/-- Every body the cache of the running server holds is truthy: each was written by the
replaced `res.json` of a cached route. -/
theorem run_entries_truthy (events : List Event) (s : Server)
    (h : ∀ k e, s.cache.data k = some e → e.v.truthy = true) :
    ∀ k e, (s.run events).cache.data k = some e → e.v.truthy = true := by
  induction events generalizing s with
  | nil => exact h
  | cons event rest ih => exact ih (s.step event) (step_entries_truthy s event h)

/-- C6, as stated, fails: two requests for one search URL arrive at 0 ms and at 1000 ms, less
than 300 s apart. The first finds no cache entry and its handler answers, at 5000 ms. The second
arrives before that answer, finds no entry either, and its handler is invoked as well. -/
theorem second_request_before_answer_invokes_handler :
    (apiCache.get 0 pieUrl).1 = none ∧
    1000 < 0 + Route.search.duration * 1000 ∧
    (Server.start.run overlapping).invoked = [1, 2] ∧
    (Server.start.run overlapping).sent =
      [(1, Route.search.handler (.data (some (.arr [.str "Apple Pie"])))),
       (2, Route.search.handler (.data (some (.arr [.str "Apple Pie"]))))] := by
  refine ⟨rfl, by decide, rfl, rfl⟩

/-- C6, amended: on a route wrapped by `cacheMiddleware(d)`, when a first request for `u` finds
no cache entry and its handler answers with body `b`, a second request for `u` that arrives
after that answer and less than `d` seconds after the first request is answered with the same
body `b`, and its handler is not invoked: the first request is the only one added to the
requests whose handler ran. -/
theorem second_request_after_answer_served_from_cache (s : Server) (route : Route) (u : String)
    (request1 request2 arrival1 answered1 arrival2 : ℕ) (upstream1 : Upstream)
    (hmiss : (s.cache.get arrival1 u).1 = none)
    (hnew : ∀ w ∈ s.waiting, w.request ≠ request1)
    (hanswer : arrival1 ≤ answered1) (_hafter : answered1 ≤ arrival2)
    (hsoon : arrival2 < arrival1 + route.duration * 1000) :
    (s.run [.arrives request1 route arrival1 u, .answers request1 answered1 upstream1,
        .arrives request2 route arrival2 u]).sent =
      s.sent ++ [(request1, route.handler upstream1),
        (request2, ⟨200, (route.handler upstream1).body⟩)] ∧
    (s.run [.arrives request1 route arrival1 u, .answers request1 answered1 upstream1,
        .arrives request2 route arrival2 u]).invoked = s.invoked ++ [request1] := by
  have hpass := cacheMiddleware_miss route.duration s.cache arrival1 u hmiss
  have hd := duration_pos route
  have hfind : (s.waiting ++ [(⟨request1, route, u⟩ : Waiting)]).find?
      (fun w => w.request = request1) = some ⟨request1, route, u⟩ := by
    have hnone : s.waiting.find? (fun w => decide (w.request = request1)) = none := by
      rw [List.find?_eq_none]
      intro w hw
      simpa using hnew w hw
    rw [List.find?_append, hnone]
    simp
  simp only [Server.run, List.foldl_cons, List.foldl_nil]
  rw [step_arrives_passedOn s request1 route arrival1 u hpass]
  rw [step_answers _ request1 answered1 upstream1 ⟨request1, route, u⟩ hfind]
  have hentry : (NodeCache.set (cacheMiddleware route.duration s.cache arrival1 u).2 answered1 u
      (route.handler upstream1).body (some route.duration)).data u =
      some ⟨(route.handler upstream1).body, answered1 + route.duration * 1000⟩ := by
    simp only [NodeCache.set, if_true]
    cases hdur : route.duration with
    | zero => omega
    | succ n => rfl
  have hlive : (Entry.mk (route.handler upstream1).body
      (answered1 + route.duration * 1000)).expired arrival2 = false := by
    have : ¬ (answered1 + route.duration * 1000 < arrival2) := by omega
    simp [Entry.expired, this]
  have hhit := cacheMiddleware_hit route.duration _ arrival2 u _ hentry hlive
    (handler_body_truthy route upstream1)
  rw [step_arrives_replied _ request2 route arrival2 u _ _ hhit]
  simp

/-- A search answered at 120 ms and asked again at 299999 ms is served from the cache. -/
theorem second_request_after_answer_served_from_cache_witness :
    (Server.start.cache.get 0 pieUrl).1 = none ∧ (∀ w ∈ Server.start.waiting, w.request ≠ 1) ∧
    0 ≤ 120 ∧ 120 ≤ 299999 ∧ 299999 < 0 + Route.search.duration * 1000 ∧
    (Server.start.run [.arrives 1 .search 0 pieUrl,
        .answers 1 120 (.data (some (.arr [.str "Apple Pie"]))),
        .arrives 2 .search 299999 pieUrl]).invoked = Server.start.invoked ++ [1] :=
  ⟨rfl, by simp [Server.start], by decide, by decide, by decide,
    (second_request_after_answer_served_from_cache Server.start Route.search pieUrl 1 2 0 120
      299999 (.data (some (.arr [.str "Apple Pie"]))) rfl (by simp [Server.start]) (by decide)
      (by decide) (by decide)).2⟩

/-- C7: for every key that has an unexpired entry in `apiCache`, whatever body the routes
stored under it, `cacheMiddleware` answers the request with the stored body and does not call
`next`: in every cache the server reaches from its start, a request arriving for the key is
answered with status 200 and the stored body, its handler is not invoked, and the cache is as
before. -/
theorem cached_entry_answered (events : List Event) (duration now : ℕ) (key : String)
    (e : Entry) (hentry : (Server.start.run events).cache.data key = some e)
    (hlive : e.expired now = false) :
    (cacheMiddleware duration (Server.start.run events).cache now key).1 = .replied e.v ∧
    (cacheMiddleware duration (Server.start.run events).cache now key).1 ≠ .passedOn ∧
    (cacheMiddleware duration (Server.start.run events).cache now key).2.data =
      (Server.start.run events).cache.data ∧
    (∀ (request : ℕ) (route : Route),
      ((Server.start.run events).step (.arrives request route now key)).sent =
        (Server.start.run events).sent ++ [(request, ⟨200, e.v⟩)] ∧
      ((Server.start.run events).step (.arrives request route now key)).invoked =
        (Server.start.run events).invoked) := by
  have htruthy : e.v.truthy = true :=
    run_entries_truthy events Server.start (fun k e h => by simp [Server.start, apiCache] at h)
      key e hentry
  have hhit := fun d => cacheMiddleware_hit d (Server.start.run events).cache now key e hentry
    hlive htruthy
  refine ⟨by rw [hhit duration], by rw [hhit duration]; simp, by rw [hhit duration], ?_⟩
  intro request route
  rw [step_arrives_replied _ request route now key e.v _ (hhit route.duration)]
  exact ⟨rfl, rfl⟩

/-- The categories, stored for an hour at 10 ms, are answered from the cache at 5000 ms. -/
theorem cached_entry_answered_witness :
    (Server.start.run [.arrives 1 .categories 0 "/api/external-recipes/categories",
        .answers 1 10 (.data (some (.arr [])))]).cache.data "/api/external-recipes/categories" =
      some ⟨.arr [], 3600010⟩ ∧
    (Entry.mk (.arr []) 3600010).expired 5000 = false ∧
    (cacheMiddleware 3600
      (Server.start.run [.arrives 1 .categories 0 "/api/external-recipes/categories",
        .answers 1 10 (.data (some (.arr [])))]).cache 5000
      "/api/external-recipes/categories").1 = .replied (.arr []) :=
  ⟨rfl, rfl,
    (cached_entry_answered [.arrives 1 .categories 0 "/api/external-recipes/categories",
      .answers 1 10 (.data (some (.arr [])))] 3600 5000 "/api/external-recipes/categories"
      ⟨.arr [], 3600010⟩ rfl rfl).1⟩

/-- C8, as stated, fails: an entry written on the search route at time `0` expires after
`300` seconds, not after `600`. -/
theorem search_entry_not_ten_minutes :
    ¬ (∀ (route : Route) (cache : NodeCache) (now : ℕ) (key : String) (body : Json),
        ((wrappedJson route.duration key cache now body).2.data key).map Entry.t =
          some (now + 600 * 1000)) := by
  intro h
  have h1 := h Route.search apiCache 0 "/api/external-recipes/search?query=pie" (.arr [])
  have h2 : ((wrappedJson Route.search.duration "/api/external-recipes/search?query=pie"
      apiCache 0 (.arr [])).2.data "/api/external-recipes/search?query=pie").map Entry.t =
      some 300000 := rfl
  rw [h2] at h1
  revert h1
  decide

/-- C8, amended: every entry the caching middleware writes to `apiCache` has the time-to-live
passed to `cacheMiddleware` on its route, whatever the `stdTTL` of the cache: 300 seconds on the
search route, 3600 on the categories route and 600 on the category route. -/
theorem wrappedJson_entry_ttl (route : Route) (cache : NodeCache) (now : ℕ) (key : String)
    (body : Json) :
    (wrappedJson route.duration key cache now body).2.data key =
        some ⟨body, now + route.duration * 1000⟩ ∧
      Route.search.duration = 300 ∧ Route.categories.duration = 3600 ∧
      Route.category.duration = 600 := by
  refine ⟨?_, rfl, rfl, rfl⟩
  simp only [wrappedJson, NodeCache.set, if_true]
  cases route <;> rfl


/-! ## Properties of the listing -/

/-- The query built by the handler, run on the store. -/
theorem exec_listing_query (store : List StoredRecipe) (page limit : ℕ) (hlimit : 1 ≤ limit) :
    (((Query.find.skip ((page : ℤ) * limit)).limit limit).sort (-1)).exec store =
      .ok (((RecipeFinder.sort (compareCreatedAt (-1)) store).drop (page * limit)).take limit) := by
  have h1 : ¬ ((page : ℤ) * (limit : ℤ) < 0) := not_lt.mpr (by positivity)
  have h2 : ¬ ((limit : ℤ) = 0) := by omega
  have h3 : ((page : ℤ) * (limit : ℤ)).toNat = page * limit := by
    rw [← Nat.cast_mul]
    exact Int.toNat_natCast _
  simp [Query.exec, Query.find, Query.skip, Query.limit, Query.sort, h1, h2, h3]

/-- The store sorted by `createdAt` descending is ordered newest first. -/
theorem sort_createdAt_descending (store : List StoredRecipe) :
    (RecipeFinder.sort (compareCreatedAt (-1)) store).Pairwise
      (fun a b => b.createdAt ≤ a.createdAt) := by
  have h := sort_pairwise_of_key (compareCreatedAt (-1)) (fun r => (r.createdAt : ℚ)) store
    (by intro a _ b _; simp [compareCreatedAt])
  exact h.imp (fun hab => Int.cast_le.mp hab)

/-- For a page `p ≥ 1` and a limit `l ≥ 1` the handler answers with this listing. -/
theorem listRecipes_eq (store : List StoredRecipe) (p l : ℕ) (hp : 1 ≤ p) (hl : 1 ≤ l) :
    listRecipes store (p : ℤ) (l : ℤ) =
      .ok ⟨((RecipeFinder.sort (compareCreatedAt (-1)) store).drop ((p - 1) * l)).take l, p,
        ceilDiv (countDocuments store) l, countDocuments store⟩ := by
  have hskip : ((p : ℤ) - 1) * (l : ℤ) = ((p - 1 : ℕ) : ℤ) * (l : ℤ) := by
    rw [Nat.cast_sub hp, Nat.cast_one]
  simp only [listRecipes]
  rw [hskip, exec_listing_query store (p - 1) l hl]

/-- C9: for every page `p ≥ 1` and limit `l ≥ 1` the handler answers with a listing whose
recipes are those at the positions `(p-1)*l`, ..., `p*l-1` of a list `all` that holds exactly the
stored recipes ordered by `createdAt` descending, as far as `all` reaches: the recipe at position
`i` of the answer is the one at position `(p-1)*l + i` of `all` for `i < l`, there is none for
`i ≥ l`, and so the answer has at most `l` recipes and the sort comes before the pagination. -/
theorem listRecipes_page (store : List StoredRecipe) (p l : ℕ) (hp : 1 ≤ p) (hl : 1 ≤ l) :
    ∃ (answer : Listing) (all : List StoredRecipe),
      listRecipes store (p : ℤ) (l : ℤ) = .ok answer ∧
      all.Perm store ∧
      all.Pairwise (fun a b => b.createdAt ≤ a.createdAt) ∧
      (∀ i : ℕ, answer.recipes[i]? = if i < l then all[(p - 1) * l + i]? else none) ∧
      answer.recipes.length = min l (store.length - (p - 1) * l) ∧
      answer.recipes.length ≤ l ∧
      answer.currentPage = p := by
  refine ⟨⟨((RecipeFinder.sort (compareCreatedAt (-1)) store).drop ((p - 1) * l)).take l, p,
      ceilDiv (countDocuments store) l, countDocuments store⟩,
    RecipeFinder.sort (compareCreatedAt (-1)) store, ?_, sort_perm _ store,
    sort_createdAt_descending store, ?_, ?_, ?_, ?_⟩
  · exact listRecipes_eq store p l hp hl
  · intro i
    by_cases hi : i < l
    · simp [List.getElem?_take, hi]
    · simp [List.getElem?_take, hi]
  · simp [List.length_take, List.length_drop, (sort_perm _ store).length_eq]
  · simp [List.length_take]
  · rfl

/-- The second page of size one of a store of three recipes. -/
theorem listRecipes_page_witness :
    1 ≤ 2 ∧ 1 ≤ 1 ∧
    ∃ (answer : Listing) (all : List StoredRecipe),
      listRecipes [recipeAt "a" 10, recipeAt "b" 30, recipeAt "c" 20] ((2 : ℕ) : ℤ) ((1 : ℕ) : ℤ) =
        .ok answer ∧
      all.Perm [recipeAt "a" 10, recipeAt "b" 30, recipeAt "c" 20] ∧
      all.Pairwise (fun a b => b.createdAt ≤ a.createdAt) ∧
      (∀ i : ℕ, answer.recipes[i]? = if i < 1 then all[(2 - 1) * 1 + i]? else none) ∧
      answer.recipes.length = min 1 ([recipeAt "a" 10, recipeAt "b" 30, recipeAt "c" 20].length -
        (2 - 1) * 1) ∧
      answer.recipes.length ≤ 1 ∧
      answer.currentPage = (2 : ℕ) :=
  ⟨by decide, by decide,
    listRecipes_page [recipeAt "a" 10, recipeAt "b" 30, recipeAt "c" 20] 2 1 (by decide)
      (by decide)⟩

/-- The page count for a positive limit is the least number of pages that hold all recipes. -/
theorem ceilDiv_least (total l : ℕ) (hl : 1 ≤ l) :
    ∃ n : ℕ, ceilDiv total (l : ℤ) = some (n : ℤ) ∧ total ≤ n * l ∧
      ∀ m : ℕ, total ≤ m * l → n ≤ m := by
  have hlq : (0 : ℚ) < (l : ℚ) := by exact_mod_cast hl
  have hnonneg : 0 ≤ ⌈(total : ℚ) / (l : ℚ)⌉ := Int.ceil_nonneg (by positivity)
  refine ⟨⌈(total : ℚ) / (l : ℚ)⌉.toNat, ?_, ?_, ?_⟩
  · have hne : ¬ ((l : ℤ) = 0) := by omega
    simp only [ceilDiv, hne, if_false, Int.cast_natCast, Int.toNat_of_nonneg hnonneg]
  · have h1 : (total : ℚ) / (l : ℚ) ≤ (⌈(total : ℚ) / (l : ℚ)⌉ : ℚ) := Int.le_ceil _
    have h2 : (total : ℚ) ≤ (⌈(total : ℚ) / (l : ℚ)⌉ : ℚ) * (l : ℚ) := (div_le_iff₀ hlq).mp h1
    have h3 : ((⌈(total : ℚ) / (l : ℚ)⌉.toNat : ℕ) : ℚ) = (⌈(total : ℚ) / (l : ℚ)⌉ : ℚ) := by
      rw [← Int.cast_natCast, Int.toNat_of_nonneg hnonneg]
    rw [← h3] at h2
    exact_mod_cast h2
  · intro m hm
    have h1 : (total : ℚ) / (l : ℚ) ≤ ((m : ℤ) : ℚ) := by
      rw [div_le_iff₀ hlq]
      exact_mod_cast hm
    have h2 : ⌈(total : ℚ) / (l : ℚ)⌉ ≤ (m : ℤ) := Int.ceil_le.mpr h1
    omega

/-- C10: for every limit `l ≥ 1`, every listing the handler answers with reports as
`totalPages` the least natural number `n` with `n * l ≥ total`, where `total` is the number of
stored recipes, (so `0` for an empty store) and as `totalRecipes` that `total`; and for every
page `p ≥ 1` the handler does answer with a listing. -/
theorem listRecipes_totalPages (store : List StoredRecipe) (page : ℤ) (l : ℕ) (hl : 1 ≤ l) :
    (∀ answer : Listing, listRecipes store page (l : ℤ) = .ok answer →
      answer.totalRecipes = store.length ∧
      ∃ n : ℕ, answer.totalPages = some (n : ℤ) ∧ store.length ≤ n * l ∧
        (∀ m : ℕ, store.length ≤ m * l → n ≤ m) ∧ (store = [] → n = 0)) ∧
    (1 ≤ page → ∃ answer : Listing, listRecipes store page (l : ℤ) = .ok answer) := by
  constructor
  · intro answer hanswer
    have hfields : answer.totalRecipes = store.length ∧
        answer.totalPages = ceilDiv store.length (l : ℤ) := by
      simp only [listRecipes] at hanswer
      split at hanswer
      · cases hanswer
      · cases hanswer
        exact ⟨rfl, rfl⟩
    obtain ⟨n, hn, hle, hleast⟩ := ceilDiv_least store.length l hl
    refine ⟨hfields.1, n, hfields.2.trans hn, hle, hleast, ?_⟩
    intro hempty
    have := hleast 0 (by simp [hempty])
    omega
  · intro hpage
    obtain ⟨p, rfl⟩ := Int.eq_ofNat_of_zero_le (by omega : (0 : ℤ) ≤ page)
    exact ⟨_, listRecipes_eq store p l (by omega) hl⟩

/-- The first page of size two of a store of three recipes is answered. -/
theorem listRecipes_totalPages_witness :
    1 ≤ 2 ∧
    ∃ answer : Listing,
      listRecipes [recipeAt "a" 10, recipeAt "b" 30, recipeAt "c" 20] 1 ((2 : ℕ) : ℤ) =
        .ok answer :=
  ⟨by decide,
    (listRecipes_totalPages [recipeAt "a" 10, recipeAt "b" 30, recipeAt "c" 20] 1 2
      (by decide)).2 (by decide)⟩


/-! ## Properties of the recipe routes -/

theorem ownedBy_iff (id userId : String) (r : StoredRecipe) :
    ownedBy id userId r = true ↔ r.id = id ∧ r.userId = userId := by
  simp [ownedBy]

/-- The lookup of `PUT` and `DELETE` finds nothing when no recipe with the id is the user's. -/
theorem find_ownedBy_eq_none (store : List StoredRecipe) (id userId : String)
    (h : ∀ r ∈ store, r.id = id → r.userId ≠ userId) :
    store.find? (ownedBy id userId) = none := by
  rw [List.find?_eq_none]
  intro r hr hown
  obtain ⟨h1, h2⟩ := (ownedBy_iff id userId r).mp hown
  exact h r hr h1 h2

/-- With distinct ids, removing the first recipe that passes the filter removes the recipe with
the id and nothing else. -/
theorem eraseP_ownedBy_eq_filter (store : List StoredRecipe) (id userId : String)
    (hids : (store.map (fun r => r.id)).Nodup)
    (hfound : ∃ r ∈ store, r.id = id ∧ r.userId = userId) :
    store.eraseP (ownedBy id userId) = store.filter (fun x => decide (x.id ≠ id)) := by
  induction store with
  | nil =>
    obtain ⟨r, hr, _⟩ := hfound
    cases hr
  | cons a l ih =>
    rw [List.map_cons, List.nodup_cons] at hids
    by_cases ha : ownedBy id userId a = true
    · have haid : a.id = id := ((ownedBy_iff id userId a).mp ha).1
      have hrest : l.filter (fun x => decide (x.id ≠ id)) = l := by
        rw [List.filter_eq_self]
        intro x hx
        have : x.id ≠ id := by
          intro hxid
          exact hids.1 (List.mem_map.mpr ⟨x, hx, by rw [hxid, haid]⟩)
        simpa using this
      rw [List.eraseP_cons, ha, cond_true, List.filter_cons_of_neg (by simp [haid]), hrest]
    · obtain ⟨r, hr, hrid, hruser⟩ := hfound
      have hrl : r ∈ l := by
        rcases List.mem_cons.mp hr with h | h
        · subst h
          exact absurd ((ownedBy_iff id userId r).mpr ⟨hrid, hruser⟩) ha
        · exact h
      have haid : a.id ≠ id := by
        intro h
        exact hids.1 (List.mem_map.mpr ⟨r, hrl, by rw [hrid, h]⟩)
      have ih1 := ih hids.2 ⟨r, hrl, hrid, hruser⟩
      rw [List.eraseP_cons, Bool.eq_false_iff.mpr ha, cond_false,
        List.filter_cons_of_pos (by simpa using haid), ih1]

/-- C11: the rating request of the dashboard does not change the stored recipe. `alice` creates
her recipe `tart` and rates it with 5 stars: the route answers 200 'Recipe updated successfully'
and the collection is as before, `tart` still without a popularity, because the handler of
`PUT /api/recipes/:id` never reads `req.body.popularity`. -/
theorem putRecipe_rating_not_stored :
    (postRecipe none "r1" 1000 [] alice tartBody none).2 = [tart] ∧
    putRecipe none none [tart] alice "r1" (ratingBody 5) none =
      (⟨200, .message "Recipe updated successfully" (some tart)⟩, [tart]) ∧
    tart.userId = alice.id ∧ tart.popularity = none ∧ (ratingBody 5).popularity = some 5 := by
  refine ⟨rfl, rfl, rfl, rfl, rfl⟩

/-- C13: `PUT /api/recipes/:id` changes a stored recipe only if it is the user's: in a
collection with distinct ids every recipe of another user is after the request where and what it
was before, and when the id names no recipe or a recipe of another user the collection is
unchanged and, the lookup having completed, the answer is 404 'Recipe not found or not
authorized'. -/
theorem putRecipe_only_owner (findFault saveFault : Option String) (store : List StoredRecipe)
    (user : TokenPayload) (id : String) (body : RecipeBody) (file : Option String)
    (hids : (store.map (fun r => r.id)).Nodup) :
    (putRecipe findFault saveFault store user id body file).2.length = store.length ∧
    (∀ (i : ℕ) (r : StoredRecipe), store[i]? = some r → r.userId ≠ user.id →
      (putRecipe findFault saveFault store user id body file).2[i]? = some r) ∧
    ((∀ r ∈ store, r.id = id → r.userId ≠ user.id) →
      (putRecipe findFault saveFault store user id body file).2 = store ∧
      (putRecipe none saveFault store user id body file).1 =
        ⟨404, .error "Recipe not found or not authorized" none⟩) := by
  refine ⟨?_, ?_, ?_⟩
  · unfold putRecipe
    cases findFault with
    | some m => rfl
    | none =>
      cases hfind : store.find? (ownedBy id user.id) with
      | none => rfl
      | some found =>
        cases saveFault with
        | some m => rfl
        | none => simp [saveRecipe]
  · intro i r hi huser
    unfold putRecipe
    cases findFault with
    | some m => exact hi
    | none =>
      cases hfind : store.find? (ownedBy id user.id) with
      | none => exact hi
      | some found =>
        cases saveFault with
        | some m => exact hi
        | none =>
          have hfmem : found ∈ store := List.mem_of_find?_eq_some hfind
          have hfown := (ownedBy_iff id user.id found).mp (List.find?_some hfind)
          have hrmem : r ∈ store := List.getElem?_mem hi
          have hne : r.id ≠ found.id := by
            intro h
            have := List.inj_on_of_nodup_map hids hrmem hfmem h
            exact huser (this ▸ hfown.2)
          simp [saveRecipe, List.getElem?_map, hi, hne]
  · intro hnone
    have hfind := find_ownedBy_eq_none store id user.id hnone
    constructor
    · unfold putRecipe
      cases findFault with
      | some m => rfl
      | none => simp [hfind]
    · simp [putRecipe, hfind]

/-- Bob's request to change alice's recipe `tart` is answered 404 and changes nothing. -/
theorem putRecipe_only_owner_witness :
    ([tart, broth].map (fun r => r.id)).Nodup ∧
    (putRecipe none none [tart, broth] bob "r1" ⟨some "Pie", none, none, none, none⟩ none).2 =
      [tart, broth] :=
  ⟨by decide,
    ((putRecipe_only_owner none none [tart, broth] bob "r1" ⟨some "Pie", none, none, none, none⟩
      none (by decide)).2.2 (by decide)).1⟩

/-- C14: in a collection with distinct ids, `DELETE /api/recipes/:id` for a recipe of the user
answers 200 and leaves the collection without the recipe of that id, every other recipe where
and what it was; when the id names no recipe or a recipe of another user, the answer is 404
'Recipe not found or not authorized' and the collection is unchanged. -/
theorem deleteRecipe_only_owner (store : List StoredRecipe) (user : TokenPayload) (id : String)
    (hids : (store.map (fun r => r.id)).Nodup) :
    ((∃ r ∈ store, r.id = id ∧ r.userId = user.id) →
      deleteRecipe none store user id =
        (⟨200, .message "Recipe deleted successfully" none⟩,
          store.filter (fun x => decide (x.id ≠ id)))) ∧
    ((∀ r ∈ store, r.id = id → r.userId ≠ user.id) →
      deleteRecipe none store user id =
        (⟨404, .error "Recipe not found or not authorized" none⟩, store)) := by
  constructor
  · intro hfound
    have herase := eraseP_ownedBy_eq_filter store id user.id hids hfound
    obtain ⟨r, hr, hrid, hruser⟩ := hfound
    cases hfind : store.find? (ownedBy id user.id) with
    | none =>
      rw [List.find?_eq_none] at hfind
      exact absurd ((ownedBy_iff id user.id r).mpr ⟨hrid, hruser⟩) (hfind r hr)
    | some found => simp only [deleteRecipe, hfind, herase]
  · intro hnone
    simp only [deleteRecipe, find_ownedBy_eq_none store id user.id hnone]

/-- Alice deletes her recipe `tart`; `broth` stays. -/
theorem deleteRecipe_only_owner_witness :
    ([tart, broth].map (fun r => r.id)).Nodup ∧
    deleteRecipe none [tart, broth] alice "r1" =
      (⟨200, .message "Recipe deleted successfully" none⟩,
        [tart, broth].filter (fun x => decide (x.id ≠ "r1"))) :=
  ⟨by decide,
    (deleteRecipe_only_owner [tart, broth] alice "r1" (by decide)).1
      ⟨tart, by simp, rfl, rfl⟩⟩

/-- C15: a `POST /api/recipes` of an authenticated user whose `save` completes is answered 201
and appends exactly one recipe to the collection: its `userId` is the id of the token payload
whatever `userId` the body carries, its title, ingredients and instructions are those of the
body, and its image is the path of the uploaded file, or `''` without a file. -/
theorem postRecipe_creates (newId : String) (now : ℤ) (store : List StoredRecipe)
    (user : TokenPayload) (body : RecipeBody) (file : Option String) :
    ∃ recipe : StoredRecipe,
      postRecipe none newId now store user body file =
        (⟨201, .message "Recipe created successfully" (some recipe)⟩, store ++ [recipe]) ∧
      (postRecipe none newId now store user body file).2.length = store.length + 1 ∧
      recipe.userId = user.id ∧ recipe.title = body.title ∧
      recipe.ingredients = body.ingredients ∧ recipe.instructions = body.instructions ∧
      recipe.image = file.getD "" ∧ recipe.id = newId := by
  refine ⟨_, rfl, ?_, rfl, rfl, rfl, rfl, ?_, rfl⟩
  · simp [postRecipe]
  · cases file <;> rfl


/-! ## Properties of `authenticateJWT` -/

/-- A string without the pattern is left as it is. -/
theorem removeFirst_of_not_infix (pattern s : List Char) (h : ¬ pattern <:+: s) :
    removeFirst pattern s = s := by
  induction s with
  | nil => rfl
  | cons c s ih =>
    have hstart : startsWith (c :: s) pattern = false := by
      cases hs : startsWith (c :: s) pattern with
      | false => rfl
      | true => exact absurd (( startsWith_iff_prefix _ _).mp hs).isInfix h
    have htail : ¬ pattern <:+: s := fun hin => h (List.infix_cons hin)
    simp [removeFirst, hstart, ih htail]

/-- The occurrence of the pattern behind `pre` is removed when the pattern does not occur
earlier, that is, not within `pre` followed by the pattern without its last character. -/
theorem removeFirst_append (pattern pre post : List Char)
    (h : ¬ pattern <:+: pre ++ pattern.dropLast) :
    removeFirst pattern (pre ++ pattern ++ post) = pre ++ post := by
  have hne : pattern ≠ [] := by
    intro hnil
    apply h
    rw [hnil]
    exact List.nil_infix
  induction pre with
  | nil =>
    cases hp : pattern with
    | nil => exact absurd hp hne
    | cons d t =>
      have hstart : startsWith (d :: t ++ post) (d :: t) = true :=
        ( startsWith_iff_prefix _ _).mpr (List.prefix_append _ _)
      simp only [List.nil_append, List.cons_append] at hstart ⊢
      simp [removeFirst, hstart]
  | cons c pre ih =>
    have htail : ¬ pattern <:+: pre ++ pattern.dropLast := fun hin => h (List.infix_cons hin)
    have hstart : startsWith (c :: (pre ++ pattern ++ post)) pattern = false := by
      cases hs : startsWith (c :: (pre ++ pattern ++ post)) pattern with
      | false => rfl
      | true =>
        exfalso
        apply h
        have hpre : pattern <+: c :: (pre ++ pattern ++ post) := ( startsWith_iff_prefix _ _).mp hs
        have hsplit : c :: (pre ++ pattern ++ post) =
            (c :: pre ++ pattern.dropLast) ++ (pattern.drop (pattern.length - 1) ++ post) := by
          have hp : pattern = pattern.dropLast ++ pattern.drop (pattern.length - 1) := by
            rw [List.dropLast_eq_take]
            exact (List.take_append_drop _ _).symm
          conv_lhs => rw [hp]
          simp [List.append_assoc]
        rw [hsplit] at hpre
        have hlen : pattern.length ≤ (c :: pre ++ pattern.dropLast).length := by
          have : 0 < pattern.length := List.length_pos.mpr hne
          simp [List.length_dropLast]
          omega
        exact (List.prefix_of_prefix_length_le hpre (List.prefix_append _ _) hlen).isInfix
    show removeFirst pattern (c :: (pre ++ pattern ++ post)) = c :: (pre ++ post)
    rw [removeFirst, hstart, if_neg Bool.false_ne_true, ih htail]

/-- C12: `authenticateJWT` calls `next` exactly when the `Authorization` header is present and
non-empty and `jwt.verify` accepts the header value with its first occurrence of 'Bearer '
removed, and then `req.user` is the decoded payload; otherwise it answers 403, with 'Access
denied' when the header is missing (or empty) and 'Invalid token' when the verification fails,
and the handler behind it does not run. Removing the first occurrence means: a value without
'Bearer ' is verified as it is, and a value `pre ++ 'Bearer ' ++ post` with no earlier occurrence
is verified as `pre ++ post`. -/
theorem authenticateJWT_spec (verify : String → Option TokenPayload)
    (authorization : Option String) :
    (∀ user, authenticateJWT verify authorization = .next user ↔
      ∃ token, authorization = some token ∧ token ≠ "" ∧
        verify ⟨removeFirst "Bearer ".data token.data⟩ = some user) ∧
    (authorization = none ∨ authorization = some "" →
      authenticateJWT verify authorization = .replied ⟨403, .error "Access denied" none⟩) ∧
    (∀ token, authorization = some token → token ≠ "" →
      verify ⟨removeFirst "Bearer ".data token.data⟩ = none →
      authenticateJWT verify authorization = .replied ⟨403, .error "Invalid token" none⟩) ∧
    ((∀ user, authenticateJWT verify authorization ≠ .next user) →
      (∃ text, authenticateJWT verify authorization = .replied ⟨403, .error text none⟩) ∧
      ∀ (store : List StoredRecipe) (handler : TokenPayload → Reply × List StoredRecipe),
        (behindAuth verify authorization store handler).2 = store ∧
        (behindAuth verify authorization store handler).1.status = 403) ∧
    (∀ value : List Char, ¬ "Bearer ".data <:+: value →
      removeFirst "Bearer ".data value = value) ∧
    (∀ pre post : List Char, ¬ "Bearer ".data <:+: pre ++ "Bearer ".data.dropLast →
      removeFirst "Bearer ".data (pre ++ "Bearer ".data ++ post) = pre ++ post) := by
  refine ⟨?_, ?_, ?_, ?_, fun value h => removeFirst_of_not_infix _ value h,
    fun pre post h => removeFirst_append _ pre post h⟩
  · intro user
    cases authorization with
    | none => simp [authenticateJWT]
    | some token =>
      by_cases hempty : token = ""
      · simp [authenticateJWT, hempty]
      · cases hv : verify ⟨removeFirst "Bearer ".data token.data⟩ with
        | none => simp [authenticateJWT, hempty, hv]
        | some decoded => simp [authenticateJWT, hempty, hv]
  · intro h
    rcases h with h | h <;> subst h <;> simp [authenticateJWT]
  · intro token htoken hne hv
    subst htoken
    simp [authenticateJWT, hne, hv]
  · intro hnot
    have hreply : ∃ text, authenticateJWT verify authorization =
        .replied ⟨403, .error text none⟩ := by
      cases authorization with
      | none => exact ⟨"Access denied", by simp [authenticateJWT]⟩
      | some token =>
        by_cases hempty : token = ""
        · exact ⟨"Access denied", by simp [authenticateJWT, hempty]⟩
        · cases hv : verify ⟨removeFirst "Bearer ".data token.data⟩ with
          | none => exact ⟨"Invalid token", by simp [authenticateJWT, hempty, hv]⟩
          | some decoded =>
            exfalso
            apply hnot decoded
            simp [authenticateJWT, hempty, hv]
    obtain ⟨text, htext⟩ := hreply
    refine ⟨⟨text, htext⟩, fun store handler => ?_⟩
    simp [behindAuth, htext]


/-! ## Properties of signup and login -/

/-- A signup leaves the users as they are or appends one user with a new name. -/
theorem signup_users (bcrypt : Bcrypt) (users : List User) (request : SignupRequest) :
    (signup bcrypt users request).2 = users ∨
      ∃ name password, request.username = some name ∧ request.password = some password ∧
        (∀ u ∈ users, u.username ≠ name) ∧
        (signup bcrypt users request).2 =
          users ++ [⟨request.newId, name, bcrypt.hash request.salt password⟩] := by
  unfold signup
  cases hu : request.username with
  | none => exact Or.inl rfl
  | some name =>
    cases hp : request.password with
    | none => exact Or.inl rfl
    | some password =>
      by_cases hempty : name = "" ∨ password = ""
      · simp [hempty]
      · cases hff : request.findFault with
        | some m => simp [hempty]
        | none =>
          cases hfind : users.find? (fun u => u.username = name) with
          | some existing => simp [hempty, hfind]
          | none =>
            cases hsf : request.saveFault with
            | some m => simp [hempty, hfind]
            | none =>
              right
              refine ⟨name, password, rfl, rfl, ?_, by simp [hempty, hfind]⟩
              intro u hu1 hname
              rw [List.find?_eq_none] at hfind
              exact hfind u hu1 (by simpa using hname)

/-- One signup keeps the user names pairwise distinct. -/
theorem signup_nodup (bcrypt : Bcrypt) (users : List User) (request : SignupRequest)
    (h : (users.map (fun u => u.username)).Nodup) :
    ((signup bcrypt users request).2.map (fun u => u.username)).Nodup := by
  rcases signup_users bcrypt users request with hsame | ⟨name, password, _, _, hnew, happ⟩
  · rw [hsame]
    exact h
  · rw [happ, List.map_append, List.nodup_append]
    refine ⟨h, by simp, ?_⟩
    intro a ha hb
    simp only [List.map_cons, List.map_nil, List.mem_singleton] at hb
    obtain ⟨u, hu, hname⟩ := List.mem_map.mp ha
    exact hnew u hu (hname.trans hb)

/-- A sequence of signups keeps the user names pairwise distinct. -/
theorem signupAll_nodup (bcrypt : Bcrypt) (requests : List SignupRequest) (users : List User)
    (h : (users.map (fun u => u.username)).Nodup) :
    ((signupAll bcrypt users requests).2.map (fun u => u.username)).Nodup := by
  induction requests generalizing users with
  | nil => exact h
  | cons request rest ih =>
    simp only [signupAll]
    exact ih _ (signup_nodup bcrypt users request h)

/-- C16: signup requests handled one after another keep the user names of the store pairwise
distinct. A signup whose user name is already stored is answered 400 'Username already exists'
and leaves the store unchanged; a signup with a new name whose database calls complete is
answered 201 and appends exactly one user, whose stored password is the bcrypt hash of the
submitted password, and is therefore not the submitted password whenever the hash of a password
differs from the password. -/
theorem signupAll_usernames_distinct (bcrypt : Bcrypt) (users : List User)
    (requests : List SignupRequest) (h : (users.map (fun u => u.username)).Nodup) :
    ((signupAll bcrypt users requests).2.map (fun u => u.username)).Nodup ∧
    (signupAll bcrypt users requests).1.length = requests.length ∧
    (∀ (request : SignupRequest) (name password : String),
      request.username = some name → request.password = some password →
      name ≠ "" → password ≠ "" → request.findFault = none →
      ((∃ u ∈ users, u.username = name) →
        signup bcrypt users request = (⟨400, .error "Username already exists" none⟩, users)) ∧
      ((∀ u ∈ users, u.username ≠ name) → request.saveFault = none →
        signup bcrypt users request =
          (⟨201, .message "User created successfully" none⟩,
            users ++ [⟨request.newId, name, bcrypt.hash request.salt password⟩]) ∧
        (bcrypt.hash request.salt password ≠ password →
          ∀ u ∈ (signup bcrypt users request).2, u ∉ users → u.password ≠ password))) := by
  refine ⟨signupAll_nodup bcrypt requests users h, ?_, ?_⟩
  · clear h
    induction requests generalizing users with
    | nil => rfl
    | cons request rest ih => simp [signupAll, ih]
  · intro request name password hu hp hname hpw hff
    have hempty : ¬ (name = "" ∨ password = "") := by
      intro hor
      rcases hor with h1 | h1
      · exact hname h1
      · exact hpw h1
    constructor
    · intro hexists
      obtain ⟨u, hu1, hu2⟩ := hexists
      cases hfind : users.find? (fun u => u.username = name) with
      | none =>
        rw [List.find?_eq_none] at hfind
        exact absurd (by simpa using hu2) (hfind u hu1)
      | some existing => simp [signup, hu, hp, hempty, hff, hfind]
    · intro hnew hsf
      have hfind : users.find? (fun u => u.username = name) = none := by
        rw [List.find?_eq_none]
        intro u hu1
        simpa using hnew u hu1
      have hresult : signup bcrypt users request =
          (⟨201, .message "User created successfully" none⟩,
            users ++ [⟨request.newId, name, bcrypt.hash request.salt password⟩]) := by
        simp [signup, hu, hp, hempty, hff, hfind, hsf]
      refine ⟨hresult, ?_⟩
      intro hhash u hmem hnot
      rw [hresult] at hmem
      rcases List.mem_append.mp hmem with h1 | h1
      · exact absurd h1 hnot
      · rw [List.mem_singleton] at h1
        rw [h1]
        exact hhash

/-- A second signup for `ann` and a first one for `ben`, starting from the store with `ann`. -/
theorem signupAll_usernames_distinct_witness :
    ([ann].map (fun u => u.username)).Nodup ∧
    ((signupAll toyBcrypt [ann] [signupAnn, signupBen]).2.map (fun u => u.username)).Nodup :=
  ⟨by decide, (signupAll_usernames_distinct toyBcrypt [ann] [signupAnn, signupBen] (by decide)).1⟩

/-- C17: `POST /api/login` answers with a token only when a stored user has the submitted name
and `bcrypt.compare` accepts the submitted password against that user's stored hash; a request
with an unknown user name and a request with a wrong password for a known user name get the same
answer, status 401 with the body `{ error: 'Invalid credentials' }`. -/
theorem login_invalid_credentials (bcrypt : Bcrypt) (sign : TokenPayload → String)
    (users : List User) (unknown known password1 password2 : String) (user : User)
    (hunknown : unknown ≠ "" ∧ password1 ≠ "" ∧ ∀ u ∈ users, u.username ≠ unknown)
    (hknown : known ≠ "" ∧ password2 ≠ "" ∧
      users.find? (fun u => u.username = known) = some user ∧
      bcrypt.compare password2 user.password = false) :
    login bcrypt sign none users (some unknown) (some password1) =
        ⟨401, .error "Invalid credentials" none⟩ ∧
    login bcrypt sign none users (some known) (some password2) =
        ⟨401, .error "Invalid credentials" none⟩ ∧
    login bcrypt sign none users (some unknown) (some password1) =
      login bcrypt sign none users (some known) (some password2) ∧
    (∀ (fault : Option String) (username password : Option String) (status : ℕ)
        (token userId : String),
      login bcrypt sign fault users username password = ⟨status, .token token userId⟩ →
      ∃ name pw found, username = some name ∧ password = some pw ∧ found ∈ users ∧
        found.username = name ∧ bcrypt.compare pw found.password = true ∧
        token = sign ⟨found.id⟩ ∧ userId = found.id ∧ status = 200) := by
  obtain ⟨hu1, hu2, hu3⟩ := hunknown
  obtain ⟨hk1, hk2, hk3, hk4⟩ := hknown
  have hfind : users.find? (fun u => u.username = unknown) = none := by
    rw [List.find?_eq_none]
    intro u hu
    simpa using hu3 u hu
  have h1 : login bcrypt sign none users (some unknown) (some password1) =
      ⟨401, .error "Invalid credentials" none⟩ := by
    simp [login, hu1, hu2, hfind]
  have h2 : login bcrypt sign none users (some known) (some password2) =
      ⟨401, .error "Invalid credentials" none⟩ := by
    simp [login, hk1, hk2, hk3, hk4]
  refine ⟨h1, h2, h1.trans h2.symm, ?_⟩
  intro fault username password status token userId hlogin
  unfold login at hlogin
  cases username with
  | none => simp at hlogin
  | some name =>
    cases password with
    | none => simp at hlogin
    | some pw =>
      by_cases hempty : name = "" ∨ pw = ""
      · simp [hempty] at hlogin
      · cases fault with
        | some m => simp [hempty, caught] at hlogin
        | none =>
          cases hf : users.find? (fun u => u.username = name) with
          | none => simp [hempty, hf] at hlogin
          | some found =>
            by_cases hc : bcrypt.compare pw found.password = true
            · simp [hempty, hf, hc] at hlogin
              obtain ⟨hs, ht, hid⟩ := hlogin
              exact ⟨name, pw, found, rfl, rfl, List.mem_of_find?_eq_some hf,
                by simpa using List.find?_some hf, hc, ht.symm, hid.symm, hs.symm⟩
            · simp [hempty, hf, hc] at hlogin

/-- An unknown name and a wrong password for `ann` get the same answer. -/
theorem login_invalid_credentials_witness :
    login toyBcrypt (fun payload => payload.id) none [ann] (some "zoe") (some "secret") =
      login toyBcrypt (fun payload => payload.id) none [ann] (some "ann") (some "guess") :=
  (login_invalid_credentials toyBcrypt (fun payload => payload.id) [ann] "zoe" "ann" "secret"
    "guess" ann ⟨by decide, by decide, by decide⟩ ⟨by decide, by decide, by decide, by decide⟩).2.2.1


/-! ## Properties of the search box -/

/-- C18: the search is not debounced. The value 'a' is typed at 0 ms and 'ab' at 100 ms, less
than 300 ms later: `searchQuery` is assigned 'a' at 300 ms and 'ab' at 400 ms, so the earlier
value is assigned as well, because the function returned by `debouncedSearch`, which would clear
the timeout, is never called. -/
theorem debouncedSearch_assigns_every_value :
    (typing SearchBox.initial 1000 [(0, "a"), (100, "ab")]).assigned =
      [(300, "a"), (400, "ab")] ∧
    (advance (onChange (onChange SearchBox.initial 0 "a") 100 "ab") 300).searchQuery = "a" ∧
    (typing SearchBox.initial 1000 [(0, "a"), (100, "ab")]).searchQuery = "ab" := by
  refine ⟨by decide, by decide, by decide⟩

/-! ## Properties of the error handling -/

/-- C19: in each of the five recipe handlers an error `e` thrown by a database call the handler
makes ends in the `catch` branch: the handler answers, with status 500 and a body that holds the
handler's error text and `details` equal to the message of `e`, and the collection is as
before. For `PUT` this covers the lookup and, when a recipe was found, the save. -/
theorem recipe_handlers_catch (e : String) (store : List StoredRecipe) (user : TokenPayload)
    (id newId : String) (now : ℤ) (body : RecipeBody) (file pageParam limitParam : Option String)
    (saveFault : Option String) :
    postRecipe (some e) newId now store user body file =
      (⟨500, .error "Failed to create recipe" (some e)⟩, store) ∧
    getRecipes (some e) store pageParam limitParam =
      ⟨500, .error "Failed to retrieve recipes" (some e)⟩ ∧
    (∀ status message,
      listRecipes store (pageOf pageParam) (limitOf limitParam) = .error (status, message) →
      getRecipes none store pageParam limitParam =
        ⟨500, .error "Failed to retrieve recipes" (some message)⟩) ∧
    getRecipeById (some e) store id = ⟨500, .error "Failed to retrieve recipe" (some e)⟩ ∧
    putRecipe (some e) saveFault store user id body file =
      (⟨500, .error "Failed to update recipe" (some e)⟩, store) ∧
    (store.find? (ownedBy id user.id) = none ∨
      putRecipe none (some e) store user id body file =
        (⟨500, .error "Failed to update recipe" (some e)⟩, store)) ∧
    deleteRecipe (some e) store user id =
      (⟨500, .error "Failed to delete recipe" (some e)⟩, store) := by
  refine ⟨rfl, rfl, ?_, rfl, rfl, ?_, rfl⟩
  · intro status message h
    simp [getRecipes, h, caught]
  · cases hfind : store.find? (ownedBy id user.id) with
    | none => exact Or.inl rfl
    | some found =>
      right
      simp [putRecipe, hfind, caught]

/-! ## Properties of the query parameters -/

theorem numOr_ne_zero (number : Option ℤ) (fallback : ℤ) (h : fallback ≠ 0) :
    numOr number fallback ≠ 0 := by
  cases number with
  | none => exact h
  | some n =>
    by_cases hn : n = 0
    · simpa [numOr, hn] using h
    · simp [numOr, hn]

/-- C20: in `GET /api/recipes` the page used is 1 when the `page` parameter is absent, is not a
number for `parseInt`, or parses to 0, and the parsed integer otherwise; the limit used is 10
in the same three cases and the parsed integer otherwise. So the limit is never 0, the quotient
in `totalPages` is defined, and the handler lists with these two values. -/
theorem page_and_limit_defaults (pageParam limitParam : Option String) (total : ℕ) :
    (parseInt none = none ∧ pageOf none = 1 ∧ limitOf none = 10) ∧
    (parseInt pageParam = none ∨ parseInt pageParam = some 0 → pageOf pageParam = 1) ∧
    (∀ n : ℤ, parseInt pageParam = some n → n ≠ 0 → pageOf pageParam = n) ∧
    (parseInt limitParam = none ∨ parseInt limitParam = some 0 → limitOf limitParam = 10) ∧
    (∀ n : ℤ, parseInt limitParam = some n → n ≠ 0 → limitOf limitParam = n) ∧
    limitOf limitParam ≠ 0 ∧ pageOf pageParam ≠ 0 ∧
    (∃ pages : ℤ, ceilDiv total (limitOf limitParam) = some pages) ∧
    (∀ store : List StoredRecipe, ∀ listing : Listing,
      listRecipes store (pageOf pageParam) (limitOf limitParam) = .ok listing →
      getRecipes none store pageParam limitParam = ⟨200, .listing listing⟩) := by
  have hlimit : limitOf limitParam ≠ 0 := numOr_ne_zero _ 10 (by decide)
  refine ⟨⟨by decide, by decide, by decide⟩, ?_, ?_, ?_, ?_, hlimit,
    numOr_ne_zero _ 1 (by decide), ?_, ?_⟩
  · intro h
    rcases h with h | h <;> simp [pageOf, numOr, h]
  · intro n h hn
    simp [pageOf, numOr, h, hn]
  · intro h
    rcases h with h | h <;> simp [limitOf, numOr, h]
  · intro n h hn
    simp [limitOf, numOr, h, hn]
  · exact ⟨⌈(total : ℚ) / (limitOf limitParam : ℚ)⌉, by simp [ceilDiv, hlimit]⟩
  · intro store listing h
    simp [getRecipes, h]

/-! ## Properties of a cache miss -/

/-- A request that finds an expired entry is passed on to the handler. -/
theorem cacheMiddleware_expired (duration : ℕ) (cache : NodeCache) (now : ℕ) (key : String)
    (e : Entry) (hentry : cache.data key = some e) (hexpired : e.expired now = true) :
    (cacheMiddleware duration cache now key).1 = .passedOn := by
  apply cacheMiddleware_miss
  simp [NodeCache.get, hentry, hexpired]

/-- C21: on a cache miss, the body the handler passes to `res.json` is forwarded unchanged to
the client, with the handler's status, and is stored in `apiCache` under `req.originalUrl` with
the route's duration as time-to-live. The replaced `res.json` does so for every body. It does so
for the error body of the `catch` branch, sent with status 500: a later request for the same URL
is answered with that error body without the handler being invoked as long as the entry has not
expired, and once it has expired the handler is invoked again. -/
theorem miss_stores_and_forwards (route : Route) (cache : NodeCache) (u : String)
    (arrival answered : ℕ) (upstream : Upstream)
    (hmiss : (cacheMiddleware route.duration cache arrival u).1 = .passedOn) :
    (serve route cache arrival answered u upstream).response = route.handler upstream ∧
    (serve route cache arrival answered u upstream).handlerInvoked = true ∧
    (serve route cache arrival answered u upstream).cache.data u =
      some ⟨(route.handler upstream).body, answered + route.duration * 1000⟩ ∧
    (∀ (body : Json) (key : String) (c : NodeCache) (now : ℕ),
      (wrappedJson route.duration key c now body).1 = body ∧
      (wrappedJson route.duration key c now body).2.data key =
        some ⟨body, now + route.duration * 1000⟩ ∧
      ∀ other : String, other ≠ key →
        (wrappedJson route.duration key c now body).2.data other = c.data other) ∧
    (∀ (message : String) (later answered2 : ℕ) (upstream2 : Upstream),
      (serve route cache arrival answered u (.failed message)).response =
        ⟨500, .obj [("error", .str route.errorText), ("details", .str message)]⟩ ∧
      (later ≤ answered + route.duration * 1000 →
        (serve route (serve route cache arrival answered u (.failed message)).cache
            later answered2 u upstream2).response.body =
          .obj [("error", .str route.errorText), ("details", .str message)] ∧
        (serve route (serve route cache arrival answered u (.failed message)).cache
            later answered2 u upstream2).handlerInvoked = false) ∧
      (answered + route.duration * 1000 < later →
        (serve route (serve route cache arrival answered u (.failed message)).cache
            later answered2 u upstream2).handlerInvoked = true ∧
        (serve route (serve route cache arrival answered u (.failed message)).cache
            later answered2 u upstream2).response = route.handler upstream2)) := by
  obtain ⟨h1, h2, h3⟩ := serve_of_passedOn route cache arrival answered u upstream hmiss
  have hd := duration_pos route
  refine ⟨h2, h1, h3, ?_, ?_⟩
  · intro body key c now
    refine ⟨rfl, ?_, ?_⟩
    · simp only [wrappedJson, NodeCache.set, if_true]
      cases route <;> rfl
    · intro other hother
      simp [wrappedJson, NodeCache.set, hother]
  · intro message later answered2 upstream2
    obtain ⟨_, g2, g3⟩ :=
      serve_of_passedOn route cache arrival answered u (.failed message) hmiss
    refine ⟨g2, ?_, ?_⟩
    · intro hlater
      have hlive : (Entry.mk (route.handler (.failed message)).body
          (answered + route.duration * 1000)).expired later = false := by
        have : ¬ (answered + route.duration * 1000 < later) := by omega
        simp [Entry.expired, this]
      have hhit := cacheMiddleware_hit route.duration _ later u _ g3 hlive
        (handler_body_truthy route (.failed message))
      rw [serve_of_replied route _ _ later answered2 u upstream2 _ hhit]
      exact ⟨rfl, rfl⟩
    · intro hlater
      have hexpired : (Entry.mk (route.handler (.failed message)).body
          (answered + route.duration * 1000)).expired later = true := by
        have hne : answered + route.duration * 1000 ≠ 0 := by omega
        simp [Entry.expired, hne, hlater]
      have hpass := cacheMiddleware_expired route.duration _ later u _ g3 hexpired
      obtain ⟨k1, k2, _⟩ := serve_of_passedOn route _ later answered2 u upstream2 hpass
      exact ⟨k1, k2⟩

/-- A search whose outbound call fails on an empty cache: the 500 answer is forwarded. -/
theorem miss_stores_and_forwards_witness :
    (cacheMiddleware Route.search.duration apiCache 0
        "/api/external-recipes/search?query=pie").1 = .passedOn ∧
    (serve Route.search apiCache 0 120 "/api/external-recipes/search?query=pie"
        (.failed "timeout")).response = Route.search.handler (.failed "timeout") :=
  ⟨rfl,
    (miss_stores_and_forwards Route.search apiCache "/api/external-recipes/search?query=pie"
      0 120 (.failed "timeout") rfl).1⟩

end RecipeFinder
